import Mathlib

/-!
# Verification of the cardano-up package manager core

Shallow embedding of the resolver, the port allocator, the package
lifecycle engine, the package-manager façade, the state store and the
file-step activation logic of the cardano-up repository, together with
theorems settling the specification claims about them.

Strings are manipulated as `List Char`; all inputs of interest are ASCII,
where Go's byte indices coincide with character indices.
-/

set_option autoImplicit false

deriving instance DecidableEq for Except

namespace CardanoUp

/-! ## Go string helpers

Models of the `strings` standard-library functions used by the source
(`Index`, `IndexAny`, `Split`, `TrimSpace`, `HasPrefix`, `TrimPrefix`),
over `List Char`. -/

/-- Model of `strings.Index` for a single character: index of the first
occurrence, `none` standing for Go's `-1`. -/
def goIndexChar (c : Char) : List Char → Option Nat
  | [] => none
  | x :: xs =>
    if x = c then some 0
    else (goIndexChar c xs).map (· + 1)

/-- Model of `strings.IndexAny`: index of the first character contained in
`set`, `none` standing for Go's `-1`. -/
def goIndexAny (set : List Char) : List Char → Option Nat
  | [] => none
  | x :: xs =>
    if set.contains x then some 0
    else (goIndexAny set xs).map (· + 1)

/-- Model of `strings.Split` with a one-character separator.
`goSplit c [] = [[]]`, matching Go's `Split("", sep) = [""]`. -/
def goSplit (c : Char) : List Char → List (List Char)
  | [] => [[]]
  | x :: xs =>
    if x = c then [] :: goSplit c xs
    else
      match goSplit c xs with
      | [] => [[x]]
      | g :: gs => (x :: g) :: gs

/-- Model of `strings.TrimSpace` (ASCII whitespace). -/
def goTrimSpace (l : List Char) : List Char :=
  ((l.dropWhile Char.isWhitespace).reverse.dropWhile Char.isWhitespace).reverse

/-- Model of `strings.HasPrefix`. -/
def goHasPrefix : List Char → List Char → Bool
  | [], _ => true
  | _ :: _, [] => false
  | p :: ps, x :: xs => p = x && goHasPrefix ps xs

/-- Model of `strings.TrimPrefix`. -/
def goTrimPrefix (pre l : List Char) : List Char :=
  if goHasPrefix pre l then l.drop pre.length else l

/-- Model of `strings.Contains` specialised to searching a substring. -/
def goContainsSub (needle : List Char) : List Char → Bool
  | [] => needle.isEmpty
  | c :: rest => goHasPrefix needle (c :: rest) || goContainsSub needle rest

/-! ## Association lists

Go maps are modelled as association lists in insertion order;
`setAssoc` overwrites in place like a Go map assignment, `delAssoc`
models `delete`, `lookupAssoc` models a comma-ok map read. -/

/-- Map assignment `m[k] = v`: overwrite in place or append. -/
def setAssoc {α : Type} (k : String) (v : α) : List (String × α) → List (String × α)
  | [] => [(k, v)]
  | (k', v') :: rest => if k' = k then (k, v) :: rest else (k', v') :: setAssoc k v rest

/-- Map read with comma-ok: `v, ok := m[k]`. -/
def lookupAssoc {α : Type} (k : String) : List (String × α) → Option α
  | [] => none
  | (k', v') :: rest => if k' = k then some v' else lookupAssoc k rest

/-- Model of Go's `delete(m, k)`. -/
def delAssoc {α : Type} (k : String) : List (String × α) → List (String × α)
  | [] => []
  | (k', v') :: rest => if k' = k then delAssoc k rest else (k', v') :: delAssoc k rest

/-! ## `Resolver.splitPackage`

Direct model of `Resolver.splitPackage` (`pkgmgr/resolver.go`): extract the
option flags between the first `[` and `]`, then the version spec starting
at the first character of `" <>=~!"`, then fall back to the whole input as
the package name. The options map is an association list in insertion
order. -/

/-- Model of `Resolver.splitPackage`, returning
`(name, version spec, options)`. -/
def splitPackage (pkg : String) : String × String × List (String × Bool) :=
  let cs := pkg.data
  let optsOpenIdx := goIndexChar '[' cs
  let optsCloseIdx := goIndexChar ']' cs
  let (pkgName0, pkgOpts) :=
    match optsOpenIdx, optsCloseIdx with
    | some oi, some ci =>
      if 0 < oi ∧ oi < ci then
        let name := (cs.take oi).asString
        let tmpOpts := (cs.drop (oi + 1)).take (ci - (oi + 1))
        let tmpFlags := goSplit ',' tmpOpts
        let opts := tmpFlags.foldl
          (fun acc tmpFlag =>
            let (flagVal, flag) :=
              if goHasPrefix ['-'] tmpFlag then (false, tmpFlag.drop 1)
              else (true, tmpFlag)
            setAssoc flag.asString flagVal acc)
          []
        (name, opts)
      else ("", ([] : List (String × Bool)))
    | _, _ => ("", [])
  let versionSpecIdx := goIndexAny " <>=~!".data cs
  let (pkgName1, pkgVersionSpec) :=
    match versionSpecIdx with
    | some vi =>
      if 0 < vi then
        (if pkgName0 = "" then (cs.take vi).asString else pkgName0,
          (goTrimSpace (cs.drop vi)).asString)
      else (pkgName0, "")
    | none => (pkgName0, "")
  let pkgName := if pkgName1 = "" then pkg else pkgName1
  (pkgName, pkgVersionSpec, pkgOpts)

/-- The package name component of `splitPackage`. -/
def splitName (pkg : String) : String := (splitPackage pkg).1

/-- The version-spec component of `splitPackage`. -/
def splitVersionSpec (pkg : String) : String := (splitPackage pkg).2.1

/-- The options component of `splitPackage`. -/
def splitOptions (pkg : String) : List (String × Bool) := (splitPackage pkg).2.2

/-! ## Model of the hashicorp `go-version` library

The resolver depends on `github.com/hashicorp/go-version` for semantic
versions and constraints.  The library is external to the repository; it is
modelled here for the plain dotted-numeric versions the package manager
uses: a version is a list of numeric segments, comparison pads the shorter
side with zeros, a constraint is an operator applied to a version, and a
constraint string is a comma-separated list that must entirely parse
(`NewConstraint("")` fails, like the library's regex).  -/

/-- Numeric value of a digit string. -/
def digitsVal (ds : List Char) : Nat :=
  ds.foldl (fun a c => a * 10 + (c.toNat - '0'.toNat)) 0

/-- Parse a non-empty all-digit string. -/
def parseNatDigits (ds : List Char) : Option Nat :=
  if ds ≠ [] ∧ ds.all (·.isDigit) then some (digitsVal ds) else none

/-- A parsed semantic version: its numeric segments. -/
structure GoVersion where
  segments : List Nat
deriving Repr, DecidableEq

/-- Model of `version.NewVersion` for dotted numeric versions. -/
def parseVersionChars (l : List Char) : Option GoVersion :=
  ((goSplit '.' l).mapM parseNatDigits).map GoVersion.mk

/-- Model of `version.NewVersion` on a string. -/
def parseVersion (s : String) : Option GoVersion :=
  parseVersionChars s.data

/-- Every segment is zero. -/
def allZeroSegs (l : List Nat) : Bool := l.all (· = 0)

/-- Segment-wise comparison, padding the shorter side with zeros. -/
def cmpSegs : List Nat → List Nat → Ordering
  | [], [] => .eq
  | [], b :: bs => if allZeroSegs (b :: bs) then .eq else .lt
  | a :: as, [] => if allZeroSegs (a :: as) then .eq else .gt
  | a :: as, b :: bs =>
    if a < b then .lt else if b < a then .gt else cmpSegs as bs

/-- Model of `Version.Compare`. -/
def cmpVersion (a b : GoVersion) : Ordering :=
  cmpSegs a.segments b.segments

/-- Constraint operators recognised by `version.NewConstraint`. -/
inductive ConstraintOp where
  | lt | le | gt | ge | eq | neq | pessimistic
deriving Repr, DecidableEq

/-- One parsed constraint: an operator applied to a version. -/
structure GoConstraint where
  op : ConstraintOp
  ver : GoVersion
deriving Repr, DecidableEq

/-- Upper bound used by the pessimistic (`~>`) operator: bump the
second-to-last segment and drop the last. -/
def pessimisticUpper : List Nat → List Nat
  | [] => [1]
  | [a] => [a + 1]
  | [a, _] => [a + 1]
  | a :: b :: c :: rest => a :: pessimisticUpper (b :: c :: rest)

/-- Model of a single constraint check. -/
def checkConstraint (c : GoConstraint) (v : GoVersion) : Bool :=
  match c.op with
  | .lt => cmpVersion v c.ver = .lt
  | .le => cmpVersion v c.ver ≠ .gt
  | .gt => cmpVersion v c.ver = .gt
  | .ge => cmpVersion v c.ver ≠ .lt
  | .eq => cmpVersion v c.ver = .eq
  | .neq => cmpVersion v c.ver ≠ .eq
  | .pessimistic =>
    cmpVersion v c.ver ≠ .lt ∧ cmpSegs v.segments (pessimisticUpper c.ver.segments) = .lt

/-- Model of `Constraints.Check`: all constraints must hold. -/
def checkConstraints (cs : List GoConstraint) (v : GoVersion) : Bool :=
  cs.all (checkConstraint · v)

/-- Parse one constraint: optional operator prefix, then a version. -/
def parseConstraintOne (l : List Char) : Option GoConstraint :=
  let t := goTrimSpace l
  let (op, rest) :=
    if goHasPrefix ['>', '='] t then (ConstraintOp.ge, t.drop 2)
    else if goHasPrefix ['<', '='] t then (ConstraintOp.le, t.drop 2)
    else if goHasPrefix ['~', '>'] t then (ConstraintOp.pessimistic, t.drop 2)
    else if goHasPrefix ['!', '='] t then (ConstraintOp.neq, t.drop 2)
    else if goHasPrefix ['>'] t then (ConstraintOp.gt, t.drop 1)
    else if goHasPrefix ['<'] t then (ConstraintOp.lt, t.drop 1)
    else if goHasPrefix ['='] t then (ConstraintOp.eq, t.drop 1)
    else (ConstraintOp.eq, t)
  match parseVersionChars (goTrimSpace rest) with
  | none => none
  | some v => some ⟨op, v⟩

/-- Model of `version.NewConstraint`: comma-separated constraints, every
part must parse (so the empty string fails). -/
def parseConstraint (s : String) : Option (List GoConstraint) :=
  (goSplit ',' s.data).mapM parseConstraintOne

/-! ## Data model

Models of the package-manifest data model (`Package`, `PackageInstallStep`
and its `docker`/`file` variants, `PackageOption`) and of
`InstalledPackage`, keeping only fields that the verified code paths read.
Go maps appear as association lists; `time.Now()` at install time is
modelled as the fixed non-zero instant `1`, which is all `IsZero`
(`InstalledPackage.IsEmpty`) can observe. -/

/-- Model of `PackageInstallStepDocker` (fields read by the verified
paths). -/
structure PackageInstallStepDocker where
  containerName : String := ""
  image : String := ""
  ports : List String := []
  pullOnly : Bool := false
deriving Repr, DecidableEq

/-- Model of `PackageInstallStepFile`. -/
structure PackageInstallStepFile where
  binary : Bool := false
  filename : String := ""
  source : String := ""
  content : String := ""
  url : String := ""
  mode : Nat := 0
deriving Repr, DecidableEq

/-- Model of `PackageInstallStep`: optional condition and the two nullable
variant pointers. -/
structure PackageInstallStep where
  condition : String := ""
  docker : Option PackageInstallStepDocker := none
  file : Option PackageInstallStepFile := none
deriving Repr, DecidableEq

/-- Model of `PackageOption` (`Default` is a Lean keyword, hence
`defaultValue`). -/
structure PackageOption where
  name : String := ""
  description : String := ""
  defaultValue : Bool := false
deriving Repr, DecidableEq

/-- Model of the `Package` manifest (fields read by the verified paths). -/
structure Package where
  name : String := ""
  version : String := ""
  dependencies : List String := []
  tags : List String := []
  installSteps : List PackageInstallStep := []
  options : List PackageOption := []
deriving Repr, DecidableEq

/-- Model of `Package.IsEmpty`. -/
def Package.isEmpty (p : Package) : Bool :=
  p.name = "" && p.version = ""

/-- Model of `Package.defaultOpts`. -/
def Package.defaultOpts (p : Package) : List (String × Bool) :=
  p.options.foldl (fun acc opt => setAssoc opt.name opt.defaultValue acc) []

/-- Model of `Package.hasTags`: the package carries every required tag. -/
def Package.hasTags (p : Package) (tags : List String) : Bool :=
  tags.all (fun tag => p.tags.contains tag)

/-- Model of `InstalledPackage`. -/
structure InstalledPackage where
  installedTime : Nat := 0
  options : List (String × Bool) := []
  outputs : List (String × String) := []
  package : Package := {}
  context : String := ""
  postInstallNotes : String := ""
deriving Repr, DecidableEq

/-- Model of `InstalledPackage.IsEmpty` (`InstalledTime.IsZero`). -/
def InstalledPackage.isEmpty (i : InstalledPackage) : Bool :=
  i.installedTime = 0

/-- Model of `NewInstalledPackage`; `time.Now()` becomes the fixed non-zero
instant `1`. -/
def newInstalledPackage (pkg : Package) (context : String)
    (postInstallNotes : String) (outputs : List (String × String))
    (options : List (String × Bool)) : InstalledPackage :=
  { package := pkg, installedTime := 1, context := context,
    postInstallNotes := postInstallNotes, options := options,
    outputs := outputs }

/-- The error kinds of `pkgmgr/error.go` (and version/constraint parse
errors from the go-version library), as a sum so theorems can tell error
kinds apart. -/
inductive PkgError where
  | malformedVersion (s : String)
  | malformedConstraint (s : String)
  | resolverPackageAlreadyInstalled (pkgName : String)
  | resolverNoAvailablePackage (pkgSpec : String)
  | resolverNoAvailablePackageDependency (depSpec : String)
  | resolverInstalledPackageNoMatchVersionSpec
      (pkgName pkgVersion depSpec : String)
  | packageNotInstalled (pkgName context : String)
  | packageUninstallWouldBreakDeps
      (pkgName pkgVersion dependentName dependentVersion : String)
  | noPackageAvailableForUpgrade (pkgSpec : String)
  | contextInstallNoNetwork
  | containerAlreadyExists
  | multipleInstallMethods
  | noInstallMethods
  | installStepCondition (condition msg : String)
  | operationFailed
  | portSpecError (msg : String)
  | unsupportedProto (proto : String)
deriving Repr, DecidableEq

/-! ## The resolver (`pkgmgr/resolver.go`)

Each Go loop that can `return` early becomes a structurally recursive
function; a loop that appends to `ret` and continues becomes a recursion
that conses the produced element onto the recursive result, which yields
the same list. -/

/-- Model of `Resolver`. -/
structure Resolver where
  context : String := ""
  installedPkgs : List InstalledPackage := []
  availablePkgs : List Package := []
  installedConstraints : List (String × List GoConstraint) := []
deriving Repr, DecidableEq

/-- `NewResolver`'s inner loop: accumulate the constraints contributed by
one installed package's dependency specs
(`installedConstraints[name] = append(installedConstraints[name], cs...)`). -/
def addInstalledConstraints (acc : List (String × List GoConstraint)) :
    List String → Except PkgError (List (String × List GoConstraint))
  | [] => .ok acc
  | dep :: rest =>
    match parseConstraint (splitVersionSpec dep) with
    | none => .error (.malformedConstraint (splitVersionSpec dep))
    | some tmpConstraints =>
      addInstalledConstraints
        (setAssoc (splitName dep)
          ((lookupAssoc (splitName dep) acc).getD [] ++ tmpConstraints) acc)
        rest

/-- `NewResolver`'s outer loop over the installed packages. -/
def buildInstalledConstraints (acc : List (String × List GoConstraint)) :
    List InstalledPackage → Except PkgError (List (String × List GoConstraint))
  | [] => .ok acc
  | ip :: rest =>
    match addInstalledConstraints acc ip.package.dependencies with
    | .error e => .error e
    | .ok acc' => buildInstalledConstraints acc' rest

/-- Model of `NewResolver`. -/
def newResolver (installedPkgs : List InstalledPackage)
    (availablePkgs : List Package) (context : String) :
    Except PkgError Resolver :=
  match buildInstalledConstraints [] installedPkgs with
  | .error e => .error e
  | .ok cs =>
    .ok { context := context, installedPkgs := installedPkgs,
          availablePkgs := availablePkgs, installedConstraints := cs }

/-- `Resolver.findInstalled`'s loop over the installed packages. -/
def findInstalledAux (pkgName pkgVersionSpec : String)
    (constraints : List GoConstraint) :
    List InstalledPackage → Except PkgError InstalledPackage
  | [] => .ok {}
  | ip :: rest =>
    if ip.package.name ≠ pkgName then
      findInstalledAux pkgName pkgVersionSpec constraints rest
    else if pkgVersionSpec ≠ "" then
      match parseVersion ip.package.version with
      | none => .error (.malformedVersion ip.package.version)
      | some v =>
        if ¬ checkConstraints constraints v then
          findInstalledAux pkgName pkgVersionSpec constraints rest
        else .ok ip
    else .ok ip

/-- Model of `Resolver.findInstalled`: first installed package with the
given name whose version satisfies the (possibly empty) version spec; an
empty record when none matches. -/
def findInstalled (r : Resolver) (pkgName pkgVersionSpec : String) :
    Except PkgError InstalledPackage :=
  if pkgVersionSpec ≠ "" then
    match parseConstraint pkgVersionSpec with
    | none => .error (.malformedConstraint pkgVersionSpec)
    | some cs => findInstalledAux pkgName pkgVersionSpec cs r.installedPkgs
  else findInstalledAux pkgName pkgVersionSpec [] r.installedPkgs

/-- `Resolver.findAvailable`'s loop; `constraints = none` models the nil
`version.Constraints` slice, for which no version check (and no version
parse) happens. -/
def findAvailableAux (pkgName : String)
    (constraints : Option (List GoConstraint)) :
    List Package → Except PkgError (List Package)
  | [] => .ok []
  | ap :: rest =>
    if ap.name ≠ pkgName then findAvailableAux pkgName constraints rest
    else
      match constraints with
      | some cs =>
        match parseVersion ap.version with
        | none => .error (.malformedVersion ap.version)
        | some v =>
          if ¬ checkConstraints cs v then
            findAvailableAux pkgName constraints rest
          else
            match findAvailableAux pkgName constraints rest with
            | .error e => .error e
            | .ok ret => .ok (ap :: ret)
      | none =>
        match findAvailableAux pkgName constraints rest with
        | .error e => .error e
        | .ok ret => .ok (ap :: ret)

/-- The constraint list `findAvailable` filters with, given the parsed
spec constraints: use the installed constraints when no extra constraints
were provided, then append. -/
def findAvailableConstraints (r : Resolver) (pkgName : String)
    (specConstraints : Option (List GoConstraint))
    (extraConstraints : Option (List GoConstraint)) :
    Option (List GoConstraint) :=
  let extra :=
    match extraConstraints with
    | none => lookupAssoc pkgName r.installedConstraints
    | some e => some e
  match extra with
  | none => specConstraints
  | some e => some ((specConstraints.getD []) ++ e)

/-- Model of `Resolver.findAvailable`: spec constraints, then the installed
constraints when no extra constraints are supplied, tracking Go's
nil-versus-present slice distinction with `Option`. -/
def findAvailable (r : Resolver) (pkgName pkgVersionSpec : String)
    (extraConstraints : Option (List GoConstraint)) :
    Except PkgError (List Package) :=
  if pkgVersionSpec ≠ "" then
    match parseConstraint pkgVersionSpec with
    | none => .error (.malformedConstraint pkgVersionSpec)
    | some cs =>
      findAvailableAux pkgName
        (findAvailableConstraints r pkgName (some cs) extraConstraints)
        r.availablePkgs
  else
    findAvailableAux pkgName
      (findAvailableConstraints r pkgName none extraConstraints)
      r.availablePkgs

/-- `Resolver.latestPackage`'s loop: keep the greatest version, skipping
packages that fail a non-empty constraint list. -/
def latestPackageAux (constraints : List GoConstraint) (ret : Package)
    (retVer : Option GoVersion) : List Package → Except PkgError Package
  | [] => .ok ret
  | p :: rest =>
    match parseVersion p.version with
    | none => .error (.malformedVersion p.version)
    | some pv =>
      if 0 < constraints.length ∧ ¬ checkConstraints constraints pv then
        latestPackageAux constraints ret retVer rest
      else
        match retVer with
        | none => latestPackageAux constraints p (some pv) rest
        | some rv =>
          if cmpVersion pv rv = .gt then
            latestPackageAux constraints p (some pv) rest
          else latestPackageAux constraints ret retVer rest

/-- Model of `Resolver.latestPackage`. -/
def latestPackage (pkgs : List Package) (constraints : List GoConstraint) :
    Except PkgError Package :=
  latestPackageAux constraints {} none pkgs

/-- Model of `Resolver.latestAvailablePackage`. -/
def latestAvailablePackage (r : Resolver) (pkgName pkgVersionSpec : String)
    (constraints : Option (List GoConstraint)) : Except PkgError Package :=
  match findAvailable r pkgName pkgVersionSpec constraints with
  | .error e => .error e
  | .ok pkgs => latestPackage pkgs (constraints.getD [])

/-- Model of `ResolverInstallSet`. -/
structure ResolverInstallSet where
  install : Package := {}
  options : List (String × Bool) := []
  selected : Bool := false
deriving Repr, DecidableEq

/-- Model of `ResolverUpgradeSet`. -/
structure ResolverUpgradeSet where
  installed : InstalledPackage := {}
  upgrade : Package := {}
  options : List (String × Bool) := []
deriving Repr, DecidableEq

/-- Model of `Resolver.getNeededDeps` as the loop over the dependency
specs.  Note the two identical `findInstalled` calls, mirroring the
source. -/
def getNeededDepsAux (r : Resolver) :
    List String → Except PkgError (List ResolverInstallSet)
  | [] => .ok []
  | dep :: rest =>
    match findInstalled r (splitName dep) (splitVersionSpec dep) with
    | .error e => .error e
    | .ok ip =>
      if ¬ ip.isEmpty then
        getNeededDepsAux r rest
      else
        match findInstalled r (splitName dep) (splitVersionSpec dep) with
        | .error e => .error e
        | .ok ip2 =>
          if ¬ ip2.isEmpty then
            .error (.resolverInstalledPackageNoMatchVersionSpec
              ip2.package.name ip2.package.version dep)
          else
            match findAvailable r (splitName dep) (splitVersionSpec dep) none with
            | .error e => .error e
            | .ok availablePkgs =>
              if availablePkgs.length = 0 then
                .error (.resolverNoAvailablePackageDependency dep)
              else
                match latestPackage availablePkgs [] with
                | .error e => .error e
                | .ok latestPkg =>
                  match getNeededDepsAux r rest with
                  | .error e => .error e
                  | .ok ret =>
                    .ok ({ install := latestPkg, options := splitOptions dep,
                           selected := false } :: ret)

/-- Model of `Resolver.getNeededDeps`. -/
def getNeededDeps (r : Resolver) (pkg : Package) :
    Except PkgError (List ResolverInstallSet) :=
  getNeededDepsAux r pkg.dependencies

/-- Model of `Resolver.Install`: per requested spec, refuse names already
installed, pick the latest available, and emit the needed dependencies
followed by the selected package. -/
def resolverInstall (r : Resolver) :
    List String → Except PkgError (List ResolverInstallSet)
  | [] => .ok []
  | pkg :: rest =>
    match findInstalled r (splitName pkg) "" with
    | .error e => .error e
    | .ok ip =>
      if ¬ ip.isEmpty then
        .error (.resolverPackageAlreadyInstalled (splitName pkg))
      else
        match latestAvailablePackage r (splitName pkg) (splitVersionSpec pkg) none with
        | .error e => .error e
        | .ok latestPkg =>
          if latestPkg.isEmpty then
            .error (.resolverNoAvailablePackage pkg)
          else
            match getNeededDeps r latestPkg with
            | .error e => .error e
            | .ok neededPkgs =>
              match resolverInstall r rest with
              | .error e => .error e
              | .ok ret =>
                .ok (neededPkgs ++
                  { install := latestPkg, options := splitOptions pkg,
                    selected := true } :: ret)

/-- `Resolver.Upgrade`'s loop emitting an upgrade set for each needed
dependency. -/
def upgradeDepsSets (r : Resolver) :
    List ResolverInstallSet → Except PkgError (List ResolverUpgradeSet)
  | [] => .ok []
  | n :: rest =>
    match findInstalled r n.install.name "" with
    | .error e => .error e
    | .ok tmpInstalled =>
      match upgradeDepsSets r rest with
      | .error e => .error e
      | .ok tail =>
        .ok ({ installed := tmpInstalled, upgrade := n.install,
               options := n.options } :: tail)

/-- Model of `Resolver.Upgrade`. -/
def resolverUpgrade (r : Resolver) :
    List String → Except PkgError (List ResolverUpgradeSet)
  | [] => .ok []
  | pkg :: rest =>
    match findInstalled r (splitName pkg) "" with
    | .error e => .error e
    | .ok installedPkg =>
      if installedPkg.isEmpty then
        .error (.packageNotInstalled (splitName pkg) r.context)
      else
        match latestAvailablePackage r (splitName pkg) (splitVersionSpec pkg) none with
        | .error e => .error e
        | .ok latestPkg =>
          if latestPkg.version = "" ∨
              latestPkg.version = installedPkg.package.version then
            .error (.noPackageAvailableForUpgrade pkg)
          else
            match getNeededDeps r latestPkg with
            | .error e => .error e
            | .ok neededPkgs =>
              match upgradeDepsSets r neededPkgs with
              | .error e => .error e
              | .ok deps =>
                match resolverUpgrade r rest with
                | .error e => .error e
                | .ok tail =>
                  .ok ({ installed := installedPkg, upgrade := latestPkg,
                         options := splitOptions pkg } :: deps ++ tail)

/-- `Resolver.Uninstall`'s inner loop over one installed package's
dependency specs: error when the package being removed is a dependency
whose constraint its current version satisfies (or which has no version
constraint). -/
def resolverUninstallDeps (pkg : InstalledPackage) (pkgVersion : GoVersion)
    (installedPkg : InstalledPackage) :
    List String → Except PkgError Unit
  | [] => .ok ()
  | dep :: rest =>
    if pkg.package.name ≠ splitName dep then
      resolverUninstallDeps pkg pkgVersion installedPkg rest
    else if splitVersionSpec dep ≠ "" then
      match parseConstraint (splitVersionSpec dep) with
      | none => .error (.malformedConstraint (splitVersionSpec dep))
      | some cs =>
        if ¬ checkConstraints cs pkgVersion then
          resolverUninstallDeps pkg pkgVersion installedPkg rest
        else
          .error (.packageUninstallWouldBreakDeps pkg.package.name
            pkg.package.version installedPkg.package.name
            installedPkg.package.version)
    else
      .error (.packageUninstallWouldBreakDeps pkg.package.name
        pkg.package.version installedPkg.package.name
        installedPkg.package.version)

/-- `Resolver.Uninstall`'s loop over all installed packages. -/
def resolverUninstallInstalled (pkg : InstalledPackage)
    (pkgVersion : GoVersion) :
    List InstalledPackage → Except PkgError Unit
  | [] => .ok ()
  | ip :: rest =>
    match resolverUninstallDeps pkg pkgVersion ip ip.package.dependencies with
    | .error e => .error e
    | .ok _ => resolverUninstallInstalled pkg pkgVersion rest

/-- Model of `Resolver.Uninstall`. -/
def resolverUninstall (r : Resolver) :
    List InstalledPackage → Except PkgError Unit
  | [] => .ok ()
  | pkg :: rest =>
    match parseVersion pkg.package.version with
    | none => .error (.malformedVersion pkg.package.version)
    | some pkgVersion =>
      match resolverUninstallInstalled pkg pkgVersion r.installedPkgs with
      | .error e => .error e
      | .ok _ => resolverUninstall r rest

/-! ## Claim-scenario definitions and claim-level predicates

Concrete packages, resolver states, manager states and worlds used by the
claim theorems, witnesses and counterexamples, plus the predicates the
claim statements mention. -/

/-- The error kinds that `findInstalled`, `findAvailable`, `latestPackage`
and `getNeededDeps` can produce. -/
def subErrOK (e : PkgError) : Bool :=
  match e with
  | .malformedVersion _ => true
  | .malformedConstraint _ => true
  | .resolverNoAvailablePackageDependency _ => true
  | _ => false

/-! ## The host-port allocator

Models of `ensureHostPortMapping`, `allocateEphemeralPort` and
`formatPortSpec`, together with the parts of the external
`docker/go-connections/nat` library they rely on (`ParsePortSpec`,
`SplitParts`, `SplitProtoPort`, `ParsePortRange`).  The kernel-assigned
ephemeral port is modelled as an injected allocator function `Nat → Nat`
indexed by an allocation counter; theorems that need the OS guarantee that
an assigned port lies in `[1, 65535]` take it as a hypothesis on the
allocator. -/

/-- `ServicePortMap` (`part_008`): container port → host port. -/
abbrev ServicePortMap := List (String × String)

/-- `PackagePortRegistry` (`part_008`): service name → port map. -/
abbrev PackagePortRegistry := List (String × ServicePortMap)

/-- `ContextPortRegistry` (`part_008`): package name → registry. -/
abbrev ContextPortRegistry := List (String × PackagePortRegistry)

/-- ASCII lower-casing (`strings.ToLower`). -/
def goToLower (l : List Char) : List Char := l.map Char.toLower

/-- One parsed port mapping (`nat.PortMapping`): host IP and host port of
the binding, container port and protocol of the port.  Container and host
ports are re-rendered in decimal by the library. -/
structure PortMapping where
  hostIP : String := ""
  hostPort : String := ""
  containerPort : String := ""
  proto : String := ""
deriving Repr, DecidableEq

/-- Model of `nat.SplitParts`: split `[ip:][hp:]cp` on `:`. -/
def splitParts (raw : List Char) : List Char × List Char × List Char :=
  let parts := goSplit ':' raw
  match parts with
  | [] => ([], [], [])
  | [c] => ([], [], c)
  | [h, c] => ([], h, c)
  | [i, h, c] => (i, h, c)
  | _ =>
    match parts.reverse with
    | c :: h :: ipRev => (joinColon ipRev.reverse, h, c)
    | _ => ([], [], [])
where
  /-- `strings.Join` with `":"`. -/
  joinColon : List (List Char) → List Char
    | [] => []
    | [x] => x
    | x :: y :: rest => x ++ ':' :: joinColon (y :: rest)

/-- Model of `nat.SplitProtoPort`: split `cp[/proto]`, defaulting the
protocol to `tcp`. -/
def splitProtoPort (raw : List Char) : List Char × List Char :=
  match goSplit '/' raw with
  | [] => ([], [])
  | p0 :: restParts =>
    if raw = [] ∨ p0 = [] then ([], [])
    else
      match restParts with
      | [] => ("tcp".data, raw)
      | p1 :: _ => if p1 = [] then ("tcp".data, p0) else (p1, p0)

/-- Model of `nat.ParsePort` (`strconv.ParseUint(s, 10, 16)`). -/
def parsePort (s : List Char) : Option Nat :=
  match parseNatDigits s with
  | none => none
  | some n => if n ≤ 65535 then some n else none

/-- Model of `nat.ParsePortRange`: a single port or `start-end`. -/
def parsePortRange (s : List Char) : Option (Nat × Nat) :=
  if s = [] then none
  else if ¬ s.contains '-' then (parsePort s).map (fun p => (p, p))
  else
    match goSplit '-' s with
    | p0 :: p1 :: _ =>
      match parsePort p0, parsePort p1 with
      | some a, some b => if b < a then none else some (a, b)
      | _, _ => none
    | _ => none

/-- Model of `nat.validateProto` (after lower-casing). -/
def validateProto (proto : List Char) : Bool :=
  proto == "tcp".data || proto == "udp".data || proto == "sctp".data

/-- Model of `nat.ParsePortSpec`: parse `[ip:][hp:]cp[/proto]` (with port
ranges) into one mapping per container port.  Validation of a non-empty
host IP is elided; the verified claims only involve empty or well-formed
IPs. -/
def parsePortSpec (rawPort : String) : Except String (List PortMapping) :=
  let ihc := splitParts rawPort.data
  let pc := splitProtoPort ihc.2.2
  let ip := ihc.1
  let hostPort := ihc.2.1
  let proto := pc.1
  let containerPort := pc.2
  if containerPort = [] then .error "no port specified"
  else
    match parsePortRange containerPort with
    | none => .error "invalid containerPort"
    | some se =>
      match (if hostPort ≠ [] then parsePortRange hostPort else some (0, 0)) with
      | none => .error "invalid hostPort"
      | some he =>
        if hostPort ≠ [] ∧ (se.2 - se.1) ≠ (he.2 - he.1) ∧ he.2 ≠ he.1 then
          .error "invalid ranges"
        else if ¬ validateProto (goToLower proto) then .error "invalid proto"
        else
          .ok ((List.range (se.2 - se.1 + 1)).map (fun i =>
            { hostIP := ip.asString,
              hostPort := if hostPort ≠ [] then toString (he.1 + i) else "",
              containerPort := toString (se.1 + i),
              proto := (goToLower proto).asString }))

/-- Model of `formatPortSpec` (`part_002`): re-serialize
`[ip:][hp:]cp[/proto]`; the host-port separator is written when either the
IP or the host port is present. -/
def formatPortSpec (ip hostPort containerPort proto : String) : String :=
  (if ip ≠ "" then ip ++ ":" else "") ++
  (if hostPort ≠ "" ∨ ip ≠ "" then hostPort ++ ":" else "") ++
  containerPort ++
  (if proto ≠ "" then "/" ++ proto else "")

/-- Model of `allocateEphemeralPort` (`part_002`): ask the kernel (the
injected allocator, at the current allocation index) for a free TCP or UDP
port; other protocols are rejected. -/
def allocateEphemeralPort (proto : String) (alloc : Nat → Nat) (count : Nat) :
    Except PkgError (String × Nat) :=
  let p := goToLower proto.data
  if p = [] ∨ p = "tcp".data then .ok (toString (alloc count), count + 1)
  else if p = "udp".data then .ok (toString (alloc count), count + 1)
  else .error (.unsupportedProto proto)

/-- Model of `ensureHostPortMapping` (`part_002`): parse the raw spec
(rejecting ranges), return it unchanged when the container port is empty,
otherwise fill an empty host port from the remembered map or from an
ephemeral kernel port, record the choice in `allocated`, and re-serialize.
Returns the rewritten spec, the updated `allocated` map and the new
allocation count. -/
def ensureHostPortMapping (rawPort : String) (registered : ServicePortMap)
    (allocated : ServicePortMap) (alloc : Nat → Nat) (count : Nat) :
    Except PkgError (String × ServicePortMap × Nat) :=
  match parsePortSpec rawPort with
  | .error msg => .error (.portSpecError msg)
  | .ok portMappings =>
    match portMappings with
    | [portMapping] =>
      let containerPort := portMapping.containerPort
      if containerPort = "" then .ok (rawPort, allocated, count)
      else
        let proto := portMapping.proto
        let hostPort0 :=
          if portMapping.hostPort = "" ∧ 0 < registered.length then
            match lookupAssoc containerPort registered with
            | some registeredPort =>
              if registeredPort ≠ "" then registeredPort else portMapping.hostPort
            | none => portMapping.hostPort
          else portMapping.hostPort
        if hostPort0 = "" then
          match allocateEphemeralPort proto alloc count with
          | .error e => .error e
          | .ok tc =>
            .ok (formatPortSpec portMapping.hostIP tc.1 containerPort proto,
              (if (lookupAssoc containerPort allocated).getD "" = "" then
                setAssoc containerPort tc.1 allocated
              else allocated), tc.2)
        else
          .ok (formatPortSpec portMapping.hostIP hostPort0 containerPort proto,
            (if (lookupAssoc containerPort allocated).getD "" = "" then
              setAssoc containerPort hostPort0 allocated
            else allocated), count)
    | _ => .error (.portSpecError "port spec expanded to multiple mappings; ranges are not supported")

/-! ## The package lifecycle engine and the package-manager façade

State model for `Package.install` / `Package.uninstall` (`part_002`) and
`PackageManager.Install` / `Upgrade` / `Uninstall` (`part_009`), restricted
to the state the claims are about: the installed-package list, the contexts
with their embedded port registries, and the container runtime (container
name → parsed port bindings) plus the ephemeral-port allocation counter.
Filesystem writes, image pulls, hook scripts, template rendering of
image/env/args/binds, output capture and logging touch none of this state
and are omitted; template rendering and condition evaluation are injected
as functions (external collaborators per the spec's §1). -/

/-- The modelled runtime world: created containers with their parsed port
bindings, and how many ephemeral ports have been handed out. -/
structure World where
  containers : List (String × List PortMapping) := []
  allocCount : Nat := 0
deriving Repr, DecidableEq

/-- The parts of `Config` the modelled code reads, plus the injected
external collaborators (template engine, ephemeral-port kernel source). -/
structure Config where
  binDir : String := ""
  dataDir : String := ""
  availablePackages : List Package := []
  requiredPackageTags : List String := []
  alloc : Nat → Nat := fun _ => 0
  render : String → String := id
  evalCondition : String → Except String Bool := fun _ => .ok true

/-- Model of `Context` (fields used by the verified paths: the network and
the embedded port registry of `part_009`). -/
structure Context where
  description : String := ""
  network : String := ""
  networkMagic : Nat := 0
  portRegistry : ContextPortRegistry := []
deriving Repr, DecidableEq

/-- Model of the package-manager state (`State`): active context, contexts
and installed packages. -/
structure PMState where
  activeContext : String := ""
  contexts : List (String × Context) := []
  installedPackages : List InstalledPackage := []
deriving Repr, DecidableEq

/-- Model of `clonePackagePortRegistry` (`part_009`): copy; nil for an
empty source. -/
def clonePackagePortRegistry (src : PackagePortRegistry) : PackagePortRegistry :=
  if src.length = 0 then []
  else src.map (fun kv => (kv.1, kv.2.map (fun p => p)))

/-- The docker preflight (`PackageInstallStepDocker.preflight`):
connectivity is assumed healthy; fail when the computed container name
already exists. -/
def dockerStepPreflight (step : PackageInstallStepDocker) (pkgName : String)
    (w : World) : Except PkgError Unit :=
  if (lookupAssoc (pkgName ++ "-" ++ step.containerName) w.containers).isSome
  then .error .containerAlreadyExists
  else .ok ()

/-- The port-processing loop of `PackageInstallStepDocker.install`: render
each spec and pass it through `ensureHostPortMapping`, threading the local
`portAllocations` map and the allocation count. -/
def dockerPortsLoop (cfg : Config) (registered : ServicePortMap) :
    List String → ServicePortMap → Nat →
    Except PkgError (List String × ServicePortMap × Nat)
  | [], allocated, count => .ok ([], allocated, count)
  | port :: rest, allocated, count =>
    match ensureHostPortMapping (cfg.render port) registered allocated
        cfg.alloc count with
    | .error e => .error e
    | .ok tac =>
      match dockerPortsLoop cfg registered rest tac.2.1 tac.2.2 with
      | .error e => .error e
      | .ok prc => .ok (tac.1 :: prc.1, prc.2)

/-- `nat.ParsePortSpecs` over the final port strings, flattened, as the
daemon stores them at `svc.Create()`. -/
def parsePortSpecsAll : List String → Except String (List PortMapping)
  | [] => .ok []
  | p :: rest =>
    match parsePortSpec p with
    | .error e => .error e
    | .ok ms =>
      match parsePortSpecsAll rest with
      | .error e => .error e
      | .ok rs => .ok (ms ++ rs)

/-- Model of `PackageInstallStepDocker.install`: process the ports, then
either pull only (no container) or create and start the container, the
daemon recording its parsed port bindings. -/
def dockerStepInstall (cfg : Config) (step : PackageInstallStepDocker)
    (pkgName : String) (registeredPorts : ServicePortMap) (w : World) :
    Except PkgError World :=
  let containerName := pkgName ++ "-" ++ step.containerName
  match dockerPortsLoop cfg registeredPorts step.ports [] w.allocCount with
  | .error e => .error e
  | .ok prc =>
    if step.pullOnly then .ok { w with allocCount := prc.2.2 }
    else
      match parsePortSpecsAll prc.1 with
      | .error msg => .error (.portSpecError msg)
      | .ok mappings =>
        if (lookupAssoc containerName w.containers).isSome then
          .error .containerAlreadyExists
        else
          .ok { containers := setAssoc containerName mappings w.containers,
                allocCount := prc.2.2 }

/-- Model of `PackageInstallStepDocker.uninstall`: stop and remove the
container if present (pull-only steps have none); image removal is
external. -/
def dockerStepUninstall (step : PackageInstallStepDocker) (pkgName : String)
    (keepData : Bool) (w : World) : World :=
  if step.pullOnly then w
  else
    { w with
      containers := delAssoc (pkgName ++ "-" ++ step.containerName) w.containers }

/-- The preflight loop of `Package.install`: enforce the one-method-per-step
invariant and run the docker preflights. -/
def packagePreflight (w : World) (pkgName : String) :
    List PackageInstallStep → Except PkgError Unit
  | [] => .ok ()
  | step :: rest =>
    if step.docker.isSome ∧ step.file.isSome then .error .multipleInstallMethods
    else
      match step.docker with
      | some d =>
        match dockerStepPreflight d pkgName w with
        | .error e => .error e
        | .ok _ => packagePreflight w pkgName rest
      | none => packagePreflight w pkgName rest

/-- Step dispatch of the `Package.install` loop: docker steps get the
remembered ports for their service; file steps write no modelled state. -/
def packageInstallStepDispatch (cfg : Config) (pkgName : String)
    (registeredPorts : PackagePortRegistry) (w : World)
    (step : PackageInstallStep) : Except PkgError World :=
  match step.docker with
  | some d =>
    dockerStepInstall cfg d pkgName
      ((lookupAssoc d.containerName registeredPorts).getD []) w
  | none =>
    match step.file with
    | some _ => .ok w
    | none => .error .noInstallMethods

/-- The install loop of `Package.install`: evaluate each step's condition
(skipping on false) and dispatch. -/
def packageInstallSteps (cfg : Config) (pkgName : String)
    (registeredPorts : PackagePortRegistry) (w : World) :
    List PackageInstallStep → Except PkgError World
  | [] => .ok w
  | step :: rest =>
    if step.condition ≠ "" then
      match cfg.evalCondition step.condition with
      | .error msg => .error (.installStepCondition step.condition msg)
      | .ok b =>
        if b then
          match packageInstallStepDispatch cfg pkgName registeredPorts w step with
          | .error e => .error e
          | .ok w2 => packageInstallSteps cfg pkgName registeredPorts w2 rest
        else packageInstallSteps cfg pkgName registeredPorts w rest
    else
      match packageInstallStepDispatch cfg pkgName registeredPorts w step with
      | .error e => .error e
      | .ok w2 => packageInstallSteps cfg pkgName registeredPorts w2 rest

/-- Model of `Package.services`: look up the container of every
non-pull-only docker step in the runtime (`ErrOperationFailed` when one is
missing). -/
def packageServicesLoop (w : World) (pkgName : String) :
    List PackageInstallStep → Except PkgError (List (String × List PortMapping))
  | [] => .ok []
  | step :: rest =>
    match step.docker with
    | some d =>
      if d.pullOnly then packageServicesLoop w pkgName rest
      else
        match lookupAssoc (pkgName ++ "-" ++ d.containerName) w.containers with
        | none => .error .operationFailed
        | some mappings =>
          match packageServicesLoop w pkgName rest with
          | .error e => .error e
          | .ok ret => .ok ((pkgName ++ "-" ++ d.containerName, mappings) :: ret)
    | none => packageServicesLoop w pkgName rest

/-- Container inspection (`NewDockerServiceFromContainerName`, `part_000`):
each recorded binding is rendered back as `0.0.0.0:{hostPort}:{port}`. -/
def servicePortStrings (mappings : List PortMapping) : List String :=
  mappings.map (fun m => "0.0.0.0:" ++ m.hostPort ++ ":" ++ m.containerPort)

/-- The port-capture switch of `Package.install`: split an inspected port
string on `:` and read off `(containerPort, hostPort)`. -/
def capturePortParts (port : String) : String × String :=
  match (goSplit ':' port.data).map List.asString with
  | [a] => (a, a)
  | [a, b] => (b, a)
  | [a, b, c] => (c, b)
  | _ => ("", "")

/-- The per-service port map captured by `Package.install`. -/
def captureServicePorts (ports : List String) : ServicePortMap :=
  ports.foldl (fun acc port =>
    setAssoc (capturePortParts port).1 (capturePortParts port).2 acc) []

/-- The used-port registry captured by `Package.install` from the created
services: service short name (container name minus the package prefix) →
container-port → host-port. -/
def captureUsedPorts (pkgName : String)
    (svcs : List (String × List PortMapping)) : PackagePortRegistry :=
  svcs.foldl (fun acc svc =>
    setAssoc ((goTrimPrefix (pkgName ++ "-").data svc.1.data).asString)
      (captureServicePorts (servicePortStrings svc.2)) acc) []

/-- Model of `Package.install` restricted to the modelled state: preflight,
run the steps, then capture the used ports from the created services.
Hooks, directory creation, output rendering and post-install notes are
external.  Returns the used ports and the new world. -/
def packageInstall (cfg : Config) (p : Package) (context : String)
    (opts : List (String × Bool)) (runHooks : Bool)
    (registeredPorts : PackagePortRegistry) (w : World) :
    Except PkgError (PackagePortRegistry × World) :=
  let pkgName := p.name ++ "-" ++ p.version ++ "-" ++ context
  match packagePreflight w pkgName p.installSteps with
  | .error e => .error e
  | .ok _ =>
    match packageInstallSteps cfg pkgName registeredPorts w p.installSteps with
    | .error e => .error e
    | .ok w2 =>
      match packageServicesLoop w2 pkgName p.installSteps with
      | .error e => .error e
      | .ok svcs => .ok (captureUsedPorts pkgName svcs, w2)

/-- The reverse step loop of `Package.uninstall`: conditions, the
one-method invariant, then docker/file uninstall. -/
def packageUninstallSteps (cfg : Config) (pkgName : String) (keepData : Bool)
    (w : World) : List PackageInstallStep → Except PkgError World
  | [] => .ok w
  | step :: rest =>
    if step.condition ≠ "" then
      match cfg.evalCondition step.condition with
      | .error msg => .error (.installStepCondition step.condition msg)
      | .ok b =>
        if b then
          if step.docker.isSome ∧ step.file.isSome then
            .error .multipleInstallMethods
          else
            match step.docker with
            | some d =>
              packageUninstallSteps cfg pkgName keepData
                (dockerStepUninstall d pkgName keepData w) rest
            | none =>
              match step.file with
              | some _ => packageUninstallSteps cfg pkgName keepData w rest
              | none => .error .noInstallMethods
        else packageUninstallSteps cfg pkgName keepData w rest
    else
      if step.docker.isSome ∧ step.file.isSome then
        .error .multipleInstallMethods
      else
        match step.docker with
        | some d =>
          packageUninstallSteps cfg pkgName keepData
            (dockerStepUninstall d pkgName keepData w) rest
        | none =>
          match step.file with
          | some _ => packageUninstallSteps cfg pkgName keepData w rest
          | none => .error .noInstallMethods

/-- Model of `Package.uninstall`: iterate the steps in reverse; data/cache
dir removal and hooks are external. -/
def packageUninstall (cfg : Config) (p : Package) (context : String)
    (keepData runHooks : Bool) (w : World) : Except PkgError World :=
  packageUninstallSteps cfg (p.name ++ "-" ++ p.version ++ "-" ++ context)
    keepData w p.installSteps.reverse

/-- Model of `PackageManager.InstalledPackages`: the installed packages of
the active context. -/
def pmInstalledPackages (st : PMState) : List InstalledPackage :=
  st.installedPackages.filter (fun pkg => pkg.context = st.activeContext)

/-- Model of `PackageManager.AvailablePackages`: registry packages carrying
all required tags. -/
def pmAvailablePackages (cfg : Config) : List Package :=
  cfg.availablePackages.filter (fun pkg => pkg.hasTags cfg.requiredPackageTags)

/-- Model of `PackageManager.registeredPorts`: the remembered ports of one
package in one context (cloned), empty when absent. -/
def pmRegisteredPorts (st : PMState) (contextName pkgName : String) :
    PackagePortRegistry :=
  match lookupAssoc contextName st.contexts with
  | none => []
  | some context =>
    if context.portRegistry.length = 0 then []
    else
      match lookupAssoc pkgName context.portRegistry with
      | some ports => clonePackagePortRegistry ports
      | none => []

/-- Model of `PackageManager.setRegisteredPorts`: store (or, when empty,
delete) the used ports of one package in the context's registry. -/
def pmSetRegisteredPorts (st : PMState) (contextName pkgName : String)
    (ports : PackagePortRegistry) : PMState :=
  let context := (lookupAssoc contextName st.contexts).getD {}
  let context2 :=
    if ports.length = 0 then
      { context with portRegistry := delAssoc pkgName context.portRegistry }
    else
      { context with
        portRegistry :=
          setAssoc pkgName (clonePackagePortRegistry ports) context.portRegistry }
  { st with contexts := setAssoc contextName context2 st.contexts }

/-- Go's `maps.Copy(dst, src)`: copy `src`'s entries over `dst`. -/
def mergeOpts (dst src : List (String × Bool)) : List (String × Bool) :=
  src.foldl (fun acc kv => setAssoc kv.1 kv.2 acc) dst

/-- The per-package body of the `PackageManager.Install` loop: merge
options, install with the remembered ports, record the installed package,
store the used ports, persist (`Save` does not change the modelled state)
and activate (filesystem only).  The rendered notes and outputs are
external and recorded as empty. -/
def pmInstallLoop (cfg : Config) (activeContextName : String) :
    List ResolverInstallSet → PMState → World →
    Except PkgError (PMState × World)
  | [], st, w => .ok (st, w)
  | installPkg :: rest, st, w =>
    let tmpPkgOpts := mergeOpts installPkg.install.defaultOpts installPkg.options
    let registered := pmRegisteredPorts st activeContextName installPkg.install.name
    match packageInstall cfg installPkg.install activeContextName tmpPkgOpts
        true registered w with
    | .error e => .error e
    | .ok pw =>
      let installedPkg :=
        newInstalledPackage installPkg.install activeContextName "" [] tmpPkgOpts
      let st2 := pmSetRegisteredPorts
        { st with installedPackages := st.installedPackages ++ [installedPkg] }
        activeContextName installPkg.install.name pw.1
      pmInstallLoop cfg activeContextName rest st2 pw.2

/-- Model of `PackageManager.Install`: require a context network, resolve,
then install every plan entry in order. -/
def pmInstall (cfg : Config) (st : PMState) (w : World) (pkgs : List String) :
    Except PkgError (PMState × World) :=
  if ((lookupAssoc st.activeContext st.contexts).getD {}).network = "" then
    .error .contextInstallNoNetwork
  else
    match newResolver (pmInstalledPackages st) (pmAvailablePackages cfg)
        st.activeContext with
    | .error e => .error e
    | .ok resolver =>
      match resolverInstall resolver pkgs with
      | .error e => .error e
      | .ok installPkgs => pmInstallLoop cfg st.activeContext installPkgs st w

/-- Model of `PackageManager.uninstallPackage`: run the package uninstall,
then drop every installed record matching the package's context, name and
version. -/
def pmUninstallPackage (cfg : Config) (st : PMState) (w : World)
    (uninstallPkg : InstalledPackage) (keepData runHooks : Bool) :
    Except PkgError (PMState × World) :=
  match packageUninstall cfg uninstallPkg.package uninstallPkg.context
      keepData runHooks w with
  | .error e => .error e
  | .ok w2 =>
    .ok ({ st with installedPackages :=
      st.installedPackages.filter (fun tmp =>
        ¬ (tmp.context = uninstallPkg.context ∧
           tmp.package.name = uninstallPkg.package.name ∧
           tmp.package.version = uninstallPkg.package.version)) }, w2)

/-- First installed package with the given name (`PackageManager.Uninstall`
search loop). -/
def pmFindInstalledByName (pkgName : String) :
    List InstalledPackage → Option InstalledPackage
  | [] => none
  | p :: rest =>
    if p.package.name = pkgName then some p
    else pmFindInstalledByName pkgName rest

/-- Model of `PackageManager.Uninstall`: find the package in the active
context, run the resolver dependency check unless forced, deactivate
(filesystem only), uninstall, persist. -/
def pmUninstall (cfg : Config) (st : PMState) (w : World) (pkgName : String)
    (keepData force : Bool) : Except PkgError (PMState × World) :=
  match pmFindInstalledByName pkgName (pmInstalledPackages st) with
  | none => .error (.packageNotInstalled pkgName st.activeContext)
  | some uninstallPkg =>
    match (if force then Except.ok () else
      match newResolver (pmInstalledPackages st) (pmAvailablePackages cfg)
          st.activeContext with
      | .error e => Except.error e
      | .ok resolver => resolverUninstall resolver [uninstallPkg]) with
    | .error e => .error e
    | .ok _ => pmUninstallPackage cfg st w uninstallPkg keepData true

/-- The per-package body of the `PackageManager.Upgrade` loop: remember the
old package's registered ports, uninstall it keeping data and without
hooks, install the new version with the remembered ports and `runHooks`
off, record it and store its used ports. -/
def pmUpgradeLoop (cfg : Config) (activeContextName : String) :
    List ResolverUpgradeSet → PMState → World →
    Except PkgError (PMState × World)
  | [], st, w => .ok (st, w)
  | upgradePkg :: rest, st, w =>
    let pkgOpts := upgradePkg.installed.options
    let registered := pmRegisteredPorts st activeContextName
      upgradePkg.installed.package.name
    match pmUninstallPackage cfg st w upgradePkg.installed true false with
    | .error e => .error e
    | .ok sw1 =>
      match packageInstall cfg upgradePkg.upgrade activeContextName pkgOpts
          false registered sw1.2 with
      | .error e => .error e
      | .ok pw =>
        let installedPkg :=
          newInstalledPackage upgradePkg.upgrade activeContextName "" [] pkgOpts
        let st2 := pmSetRegisteredPorts
          { sw1.1 with installedPackages :=
              sw1.1.installedPackages ++ [installedPkg] }
          activeContextName upgradePkg.upgrade.name pw.1
        pmUpgradeLoop cfg activeContextName rest st2 pw.2

/-- Model of `PackageManager.Upgrade`: resolve the upgrades, then replace
each package in order. -/
def pmUpgrade (cfg : Config) (st : PMState) (w : World) (pkgs : List String) :
    Except PkgError (PMState × World) :=
  match newResolver (pmInstalledPackages st) (pmAvailablePackages cfg)
      st.activeContext with
  | .error e => .error e
  | .ok resolver =>
    match resolverUpgrade resolver pkgs with
    | .error e => .error e
    | .ok upgradePkgs => pmUpgradeLoop cfg st.activeContext upgradePkgs st w

/-- Whether a `getNeededDeps` outcome is the `InstalledNoMatchVersionSpec`
error. -/
def isNoMatchResult : Except PkgError (List ResolverInstallSet) → Bool
  | .error (.resolverInstalledPackageNoMatchVersionSpec _ _ _) => true
  | _ => false

/-- One group of an install plan: the needed dependencies of a selected
package (all flagged unselected), followed by the selected package flagged
`selected = true`. -/
def installGroup (r : Resolver) (g : List ResolverInstallSet) : Prop :=
  ∃ deps sel, getNeededDeps r sel.install = .ok deps ∧ sel.selected = true ∧
    (∀ x ∈ deps, x.selected = false) ∧ g = deps ++ [sel]

/-- Scenario for the C1 witness: available `pkgA` 1.0.2/1.0.3/2.1.3 and
`pkgB` 0.1.0 depending on `pkgA < 2.0.0, >= 1.0.2` (spec end-to-end
scenario 2). -/
def c1Avail : List Package :=
  [ { name := "pkgA", version := "1.0.2" },
    { name := "pkgA", version := "1.0.3" },
    { name := "pkgA", version := "2.1.3" },
    { name := "pkgB", version := "0.1.0",
      dependencies := ["pkgA < 2.0.0, >= 1.0.2"] } ]

/-- Resolver over `c1Avail` with nothing installed. -/
def c1Resolver : Resolver := { context := "default", availablePkgs := c1Avail }

/-- The plan `Resolver.Install("pkgB")` produces over `c1Avail`. -/
def c1Plan : List ResolverInstallSet :=
  [ { install := { name := "pkgA", version := "1.0.3" }, selected := false },
    { install := { name := "pkgB", version := "0.1.0",
                   dependencies := ["pkgA < 2.0.0, >= 1.0.2"] },
      selected := true } ]

/-- Scenario for the C6 witness: `pkgA 1.0.3` installed and also the only
available version (install, then immediately upgrade). -/
def c6Installed : InstalledPackage :=
  { installedTime := 1, package := { name := "pkgA", version := "1.0.3" },
    context := "default" }

/-- Resolver state right after installing the latest `pkgA`. -/
def c6Resolver : Resolver :=
  { context := "default", installedPkgs := [c6Installed],
    availablePkgs := [{ name := "pkgA", version := "1.0.3" }] }

/-- Installed package for the C3 counterexample: `foo 1.0.0` in the
`default` context. -/
def c3Installed : InstalledPackage :=
  { installedTime := 1, package := { name := "foo", version := "1.0.0" },
    context := "default" }

/-- Available packages for the C3 counterexample: `foo 2.0.0` and `bar`
depending on `foo >= 2.0`. -/
def c3Avail : List Package :=
  [ { name := "foo", version := "2.0.0" },
    { name := "bar", version := "1.0.0", dependencies := ["foo >= 2.0"] } ]

/-- Resolver for the C3 counterexample. -/
def c3Resolver : Resolver :=
  { context := "default", installedPkgs := [c3Installed],
    availablePkgs := c3Avail }

/-- The plan `Resolver.Install("bar")` produces over `c3Resolver`. -/
def c3Plan : List ResolverInstallSet :=
  [ { install := { name := "foo", version := "2.0.0" }, selected := false },
    { install := { name := "bar", version := "1.0.0",
                   dependencies := ["foo >= 2.0"] }, selected := true } ]

/-- Package for the C2 scenario: one docker step binding container port
3001 with no explicit host port. -/
def c2Pkg : Package :=
  { name := "pkgX", version := "1.0.0",
    installSteps :=
      [{ docker := some
          { containerName := "node", image := "img", ports := ["3001"] } }] }

/-- Config for the C2 scenario; the kernel hands out port 42000. -/
def c2Cfg : Config := { availablePackages := [c2Pkg], alloc := fun _ => 42000 }

/-- Pre-state for the C2 scenario: empty registry, nothing installed. -/
def c2St0 : PMState :=
  { activeContext := "default",
    contexts := [("default", { network := "preprod", networkMagic := 1 })] }

/-- The resolver `pmInstall` builds over `c2St0`. -/
def c2Resolver : Resolver :=
  { context := "default", availablePkgs := [c2Pkg] }

/-- The single plan entry for installing `pkgX`. -/
def c2Sel : ResolverInstallSet := { install := c2Pkg, selected := true }

/-- The installed record created by the C2 install. -/
def c2Installed : InstalledPackage :=
  { installedTime := 1, package := c2Pkg, context := "default" }

/-- The `default` context after the C2 install: the port registry now
remembers `pkgX`'s allocation. -/
def c2CtxPost : Context :=
  { network := "preprod", networkMagic := 1,
    portRegistry := [("pkgX", [("node", [("3001", "42000")])])] }

/-- State after the C2 install. -/
def c2St1 : PMState :=
  { activeContext := "default", contexts := [("default", c2CtxPost)],
    installedPackages := [c2Installed] }

/-- World after the C2 install. -/
def c2W1 : World :=
  { containers := [("pkgX-1.0.0-default-node",
      [{ hostIP := "", hostPort := "42000", containerPort := "3001",
         proto := "tcp" }])],
    allocCount := 1 }

/-- State after the C2 uninstall: the installed list is restored but the
port-registry entry survives. -/
def c2St2 : PMState :=
  { activeContext := "default", contexts := [("default", c2CtxPost)],
    installedPackages := [] }

/-- World after the C2 uninstall. -/
def c2W2 : World := { containers := [], allocCount := 1 }

/-- Version 1.0.3 of the C7 package: docker step `node` binding container
port 3001 with no explicit host port. -/
def c7PkgA3 : Package :=
  { name := "pkgA", version := "1.0.3",
    installSteps :=
      [{ docker := some
          { containerName := "node", image := "img3", ports := ["3001"] } }] }

/-- Version 1.0.4 of the C7 package, same container port. -/
def c7PkgA4 : Package :=
  { name := "pkgA", version := "1.0.4",
    installSteps :=
      [{ docker := some
          { containerName := "node", image := "img4", ports := ["3001"] } }] }

/-- Config at install time: only 1.0.3 available; the kernel hands out
port 42000. -/
def c7CfgA : Config := { availablePackages := [c7PkgA3], alloc := fun _ => 42000 }

/-- Config at upgrade time: 1.0.4 has appeared. -/
def c7CfgB : Config :=
  { availablePackages := [c7PkgA3, c7PkgA4], alloc := fun _ => 42000 }

/-- Pre-state for the C7 scenario. -/
def c7St0 : PMState :=
  { activeContext := "default",
    contexts := [("default", { network := "preprod", networkMagic := 1 })] }

/-- The `default` context after installing 1.0.3: host port 42000
remembered for container port 3001. -/
def c7Ctx1 : Context :=
  { network := "preprod", networkMagic := 1,
    portRegistry := [("pkgA", [("node", [("3001", "42000")])])] }

/-- State after installing 1.0.3. -/
def c7St1 : PMState :=
  { activeContext := "default", contexts := [("default", c7Ctx1)],
    installedPackages :=
      [{ installedTime := 1, package := c7PkgA3, context := "default" }] }

/-- World after installing 1.0.3. -/
def c7W1 : World :=
  { containers := [("pkgA-1.0.3-default-node",
      [{ hostIP := "", hostPort := "42000", containerPort := "3001",
         proto := "tcp" }])],
    allocCount := 1 }

/-- State after upgrading to 1.0.4: same remembered ports. -/
def c7St2 : PMState :=
  { activeContext := "default", contexts := [("default", c7Ctx1)],
    installedPackages :=
      [{ installedTime := 1, package := c7PkgA4, context := "default" }] }

/-- World after upgrading: the new container reuses host port 42000 and no
further ephemeral port was acquired. -/
def c7W2 : World :=
  { containers := [("pkgA-1.0.4-default-node",
      [{ hostIP := "", hostPort := "42000", containerPort := "3001",
         proto := "tcp" }])],
    allocCount := 1 }

/-- A filesystem operation issued by the state store. -/
inductive FsOp where
  | statDir (path : String)
  | mkdirAll (path : String) (mode : Nat)
  | writeFile (path : String) (mode : Nat)
  | renameFile (src dst : String)
deriving Repr, DecidableEq

/-- Model of `State.saveFile`: stat the config dir, create it with mode
`0700` when absent, then write the file in place with `os.WriteFile` and
mode `0600`.  Returns the trace and whether the directory exists
afterwards. -/
def saveFileOps (configDir filename : String) (dirExists : Bool) :
    List FsOp × Bool :=
  (FsOp.statDir configDir ::
    (if dirExists then [] else [FsOp.mkdirAll configDir 0o700]) ++
    [FsOp.writeFile (configDir ++ "/" ++ filename) 0o600], true)

/-- Model of `State.Save`: persist the four YAML artifacts in order
(contexts, active context, installed packages, port registry). -/
def stateSaveOps (configDir : String) (dirExists : Bool) : List FsOp :=
  let s1 := saveFileOps configDir "contexts.yaml" dirExists
  let s2 := saveFileOps configDir "active_context.yaml" s1.2
  let s3 := saveFileOps configDir "installed_packages.yaml" s2.2
  let s4 := saveFileOps configDir "port_registry.yaml" s3.2
  s1.1 ++ s2.1 ++ s3.1 ++ s4.1

/-- Whether an operation is a rename. -/
def isRenameOp : FsOp → Bool
  | .renameFile _ _ => true
  | _ => false

/-- A filesystem node as `activate` distinguishes them via `Lstat`. -/
inductive FsNode where
  | regular
  | symlink (target : String)
deriving Repr, DecidableEq

/-- The modelled filesystem: path → node. -/
abbrev FileSystem := List (String × FsNode)

/-- Model of `PackageInstallStepFile.activate`: for a `binary` step, place
a symlink `{BinDir}/{rendered filename}` → `{DataDir}/{pkgName}/{filename}`;
an existing symlink is removed first, an existing non-symlink aborts with
the "will not overwrite existing file" error (Go's `%q` quotes the path). -/
def fileStepActivate (cfg : Config) (step : PackageInstallStepFile)
    (pkgName : String) (fs : FileSystem) : Except String FileSystem :=
  if step.binary then
    let tmpFilePath := cfg.render step.filename
    let filePath := cfg.dataDir ++ "/" ++ pkgName ++ "/" ++ step.filename
    let binPath := cfg.binDir ++ "/" ++ tmpFilePath
    match lookupAssoc binPath fs with
    | none => .ok (setAssoc binPath (.symlink filePath) fs)
    | some (.symlink _) =>
      .ok (setAssoc binPath (.symlink filePath) (delAssoc binPath fs))
    | some .regular =>
      .error ("will not overwrite existing file " ++ "\"" ++ binPath ++
        "\"" ++ " with symlink")
  else .ok fs


/-! ## Helper lemmas about resolver errors and results -/

theorem findInstalledAux_error {n s : String} {cs : List GoConstraint} :
    ∀ {l : List InstalledPackage} {e : PkgError},
      findInstalledAux n s cs l = .error e → subErrOK e = true := by
  intro l
  induction l with
  | nil => intro e h; exact absurd h (by simp [findInstalledAux])
  | cons ip rest ih =>
    intro e h
    rw [findInstalledAux] at h
    split at h
    · exact ih h
    · split at h
      · split at h
        · injection h with h2; subst h2; rfl
        · split at h
          · exact ih h
          · cases h
      · cases h

theorem findInstalled_error {r : Resolver} {n s : String} {e : PkgError}
    (h : findInstalled r n s = .error e) : subErrOK e = true := by
  rw [findInstalled] at h
  split at h
  · split at h
    · injection h with h2; subst h2; rfl
    · exact findInstalledAux_error h
  · exact findInstalledAux_error h

theorem findAvailableAux_error {n : String} :
    ∀ {cs : Option (List GoConstraint)} {l : List Package} {e : PkgError},
      findAvailableAux n cs l = .error e → subErrOK e = true := by
  intro cs
  cases cs with
  | none =>
    intro l
    induction l with
    | nil => intro e h; exact absurd h (by simp [findAvailableAux])
    | cons ap rest ih =>
      intro e h
      rw [findAvailableAux] at h
      split at h
      · exact ih h
      · cases hr : findAvailableAux n none rest with
        | error e2 =>
          simp only [hr] at h
          injection h with h2; subst h2; exact ih hr
        | ok ret => simp only [hr] at h; exact Except.noConfusion h
  | some cs0 =>
    intro l
    induction l with
    | nil => intro e h; exact absurd h (by simp [findAvailableAux])
    | cons ap rest ih =>
      intro e h
      rw [findAvailableAux] at h
      split at h
      · exact ih h
      · cases hv : parseVersion ap.version with
        | none =>
          simp only [hv] at h
          injection h with h2; subst h2; rfl
        | some v =>
          simp only [hv] at h
          by_cases hck : checkConstraints cs0 v = true
          · rw [if_neg (by simp [hck])] at h
            cases hr : findAvailableAux n (some cs0) rest with
            | error e2 =>
              simp only [hr] at h
              injection h with h2; subst h2; exact ih hr
            | ok ret => simp only [hr] at h; exact Except.noConfusion h
          · rw [if_pos (by simp [hck])] at h
            exact ih h

theorem findAvailable_error {r : Resolver} {n s : String}
    {ec : Option (List GoConstraint)} {e : PkgError}
    (h : findAvailable r n s ec = .error e) : subErrOK e = true := by
  rw [findAvailable] at h
  split at h
  · split at h
    · injection h with h2; subst h2; rfl
    · exact findAvailableAux_error h
  · exact findAvailableAux_error h

theorem latestPackageAux_error {cs : List GoConstraint} :
    ∀ {l : List Package} {ret : Package} {rv : Option GoVersion} {e : PkgError},
      latestPackageAux cs ret rv l = .error e → subErrOK e = true := by
  intro l
  induction l with
  | nil => intro ret rv e h; exact absurd h (by simp [latestPackageAux])
  | cons p rest ih =>
    intro ret rv e h
    rw [latestPackageAux] at h
    split at h
    · injection h with h2; subst h2; rfl
    · split at h
      · exact ih h
      · split at h
        · exact ih h
        · split at h
          · exact ih h
          · exact ih h

theorem latestPackage_error {l : List Package} {cs : List GoConstraint}
    {e : PkgError} (h : latestPackage l cs = .error e) : subErrOK e = true :=
  latestPackageAux_error h

theorem latestAvailablePackage_error {r : Resolver} {n s : String}
    {cs : Option (List GoConstraint)} {e : PkgError}
    (h : latestAvailablePackage r n s cs = .error e) : subErrOK e = true := by
  rw [latestAvailablePackage] at h
  split at h
  · next heq => injection h with h2; subst h2; exact findAvailable_error heq
  · exact latestPackage_error h

theorem getNeededDepsAux_error {r : Resolver} :
    ∀ {deps : List String} {e : PkgError},
      getNeededDepsAux r deps = .error e → subErrOK e = true := by
  intro deps
  induction deps with
  | nil => intro e h; exact absurd h (by simp [getNeededDepsAux])
  | cons dep rest ih =>
    intro e h
    rw [getNeededDepsAux] at h
    cases hfi : findInstalled r (splitName dep) (splitVersionSpec dep) with
    | error e2 =>
      simp only [hfi] at h
      injection h with h2; subst h2; exact findInstalled_error hfi
    | ok ip =>
      simp only [hfi] at h
      by_cases hemp : ip.isEmpty = true
      · rw [if_neg (by simp [hemp])] at h
        rw [if_neg (by simp [hemp])] at h
        cases hfa : findAvailable r (splitName dep) (splitVersionSpec dep) none with
        | error e3 =>
          simp only [hfa] at h
          injection h with h2; subst h2; exact findAvailable_error hfa
        | ok avail =>
          simp only [hfa] at h
          by_cases hlen : avail.length = 0
          · rw [if_pos hlen] at h
            injection h with h2; subst h2; rfl
          · rw [if_neg hlen] at h
            cases hlp : latestPackage avail [] with
            | error e4 =>
              simp only [hlp] at h
              injection h with h2; subst h2; exact latestPackage_error hlp
            | ok latestPkg =>
              simp only [hlp] at h
              cases hnd : getNeededDepsAux r rest with
              | error e5 =>
                simp only [hnd] at h
                injection h with h2; subst h2; exact ih hnd
              | ok ret => simp only [hnd] at h; exact Except.noConfusion h
      · rw [if_pos (by simp [hemp])] at h
        exact ih h

theorem getNeededDeps_error {r : Resolver} {pkg : Package} {e : PkgError}
    (h : getNeededDeps r pkg = .error e) : subErrOK e = true := by
  rw [getNeededDeps] at h
  exact getNeededDepsAux_error h

theorem upgradeDepsSets_error {r : Resolver} :
    ∀ {l : List ResolverInstallSet} {e : PkgError},
      upgradeDepsSets r l = .error e → subErrOK e = true := by
  intro l
  induction l with
  | nil => intro e h; exact absurd h (by simp [upgradeDepsSets])
  | cons n rest ih =>
    intro e h
    rw [upgradeDepsSets] at h
    cases hfi : findInstalled r n.install.name "" with
    | error e2 =>
      simp only [hfi] at h
      injection h with h2; subst h2; exact findInstalled_error hfi
    | ok tmpInstalled =>
      simp only [hfi] at h
      cases hud : upgradeDepsSets r rest with
      | error e2 =>
        simp only [hud] at h
        injection h with h2; subst h2; exact ih hud
      | ok tail => simp only [hud] at h; exact Except.noConfusion h

/-- Every package returned by `findAvailableAux` carries the requested
name. -/
theorem findAvailableAux_mem {n : String} :
    ∀ {cs : Option (List GoConstraint)} {l out : List Package},
      findAvailableAux n cs l = .ok out → ∀ p ∈ out, p.name = n := by
  intro cs
  cases cs with
  | none =>
    intro l
    induction l with
    | nil =>
      intro out h p hp
      rw [findAvailableAux] at h
      injection h with h2; subst h2; cases hp
    | cons ap rest ih =>
      intro out h p hp
      rw [findAvailableAux] at h
      split at h
      · exact ih h p hp
      · next hname =>
        cases hr : findAvailableAux n none rest with
        | error e2 => simp only [hr] at h; exact Except.noConfusion h
        | ok ret =>
          simp only [hr] at h
          injection h with h2; subst h2
          rcases List.mem_cons.mp hp with hp1 | hp1
          · subst hp1; exact of_not_not (by simpa using hname)
          · exact ih hr p hp1
  | some cs0 =>
    intro l
    induction l with
    | nil =>
      intro out h p hp
      rw [findAvailableAux] at h
      injection h with h2; subst h2; cases hp
    | cons ap rest ih =>
      intro out h p hp
      rw [findAvailableAux] at h
      split at h
      · exact ih h p hp
      · next hname =>
        cases hv : parseVersion ap.version with
        | none => simp only [hv] at h; exact Except.noConfusion h
        | some v =>
          simp only [hv] at h
          by_cases hck : checkConstraints cs0 v = true
          · rw [if_neg (by simp [hck])] at h
            cases hr : findAvailableAux n (some cs0) rest with
            | error e2 => simp only [hr] at h; exact Except.noConfusion h
            | ok ret =>
              simp only [hr] at h
              injection h with h2; subst h2
              rcases List.mem_cons.mp hp with hp1 | hp1
              · subst hp1; exact of_not_not (by simpa using hname)
              · exact ih hr p hp1
          · rw [if_pos (by simp [hck])] at h
            exact ih h p hp

/-- Every package returned by `findAvailable` carries the requested name. -/
theorem findAvailable_mem {r : Resolver} {n s : String}
    {ec : Option (List GoConstraint)} {out : List Package}
    (h : findAvailable r n s ec = .ok out) : ∀ p ∈ out, p.name = n := by
  rw [findAvailable] at h
  split at h
  · split at h
    · exact Except.noConfusion h
    · exact findAvailableAux_mem h
  · exact findAvailableAux_mem h

/-- `latestPackageAux` returns either its accumulator or a member of its
input. -/
theorem latestPackageAux_mem {cs : List GoConstraint} :
    ∀ {l : List Package} {ret p : Package} {rv : Option GoVersion},
      latestPackageAux cs ret rv l = .ok p → p = ret ∨ p ∈ l := by
  intro l
  induction l with
  | nil =>
    intro ret p rv h
    rw [latestPackageAux] at h
    injection h with h2; exact Or.inl h2.symm
  | cons q rest ih =>
    intro ret p rv h
    rw [latestPackageAux] at h
    cases hv : parseVersion q.version with
    | none => simp only [hv] at h; exact Except.noConfusion h
    | some pv =>
      simp only [hv] at h
      split at h
      · rcases ih h with h1 | h1
        · exact Or.inl h1
        · exact Or.inr (List.mem_cons_of_mem _ h1)
      · split at h
        · rcases ih h with h1 | h1
          · exact Or.inr (h1 ▸ List.mem_cons_self _ _)
          · exact Or.inr (List.mem_cons_of_mem _ h1)
        · split at h
          · rcases ih h with h1 | h1
            · exact Or.inr (h1 ▸ List.mem_cons_self _ _)
            · exact Or.inr (List.mem_cons_of_mem _ h1)
          · rcases ih h with h1 | h1
            · exact Or.inl h1
            · exact Or.inr (List.mem_cons_of_mem _ h1)

/-- With no constraints and a non-empty candidate list, `latestPackage`
returns a member of the list. -/
theorem latestPackage_mem_of_ne_nil {l : List Package} {p : Package}
    (h : latestPackage l [] = .ok p) (hne : l ≠ []) : p ∈ l := by
  cases l with
  | nil => exact absurd rfl hne
  | cons q rest =>
    rw [latestPackage, latestPackageAux] at h
    cases hv : parseVersion q.version with
    | none => simp only [hv] at h; exact Except.noConfusion h
    | some pv =>
      simp only [hv] at h
      split at h
      · next hcond => exact absurd hcond (by simp)
      · rcases latestPackageAux_mem h with h1 | h1
        · exact h1 ▸ List.mem_cons_self _ _
        · exact List.mem_cons_of_mem _ h1

/-- Structure of the dependency sets emitted by `getNeededDeps`: each one
is unselected, comes from some dependency spec of the package, carries that
spec's options and name, and is emitted only when `findInstalled` found no
installed package satisfying the spec. -/
theorem getNeededDepsAux_mem {r : Resolver} :
    ∀ {deps : List String} {out : List ResolverInstallSet},
      getNeededDepsAux r deps = .ok out →
      ∀ x ∈ out, x.selected = false ∧
        ∃ dep ∈ deps, x.options = splitOptions dep ∧
          x.install.name = splitName dep ∧
          ∃ er, findInstalled r (splitName dep) (splitVersionSpec dep) = .ok er ∧
            er.isEmpty = true := by
  intro deps
  induction deps with
  | nil =>
    intro out h x hx
    rw [getNeededDepsAux] at h
    injection h with h2; subst h2; cases hx
  | cons dep rest ih =>
    intro out h x hx
    rw [getNeededDepsAux] at h
    cases hfi : findInstalled r (splitName dep) (splitVersionSpec dep) with
    | error e2 => simp only [hfi] at h; exact Except.noConfusion h
    | ok ip =>
      simp only [hfi] at h
      by_cases hemp : ip.isEmpty = true
      · rw [if_neg (by simp [hemp])] at h
        rw [if_neg (by simp [hemp])] at h
        cases hfa : findAvailable r (splitName dep) (splitVersionSpec dep) none with
        | error e3 => simp only [hfa] at h; exact Except.noConfusion h
        | ok avail =>
          simp only [hfa] at h
          by_cases hlen : avail.length = 0
          · rw [if_pos hlen] at h; exact Except.noConfusion h
          · rw [if_neg hlen] at h
            cases hlp : latestPackage avail [] with
            | error e4 => simp only [hlp] at h; exact Except.noConfusion h
            | ok latestPkg =>
              simp only [hlp] at h
              cases hnd : getNeededDepsAux r rest with
              | error e5 => simp only [hnd] at h; exact Except.noConfusion h
              | ok ret =>
                simp only [hnd] at h
                injection h with h2; subst h2
                rcases List.mem_cons.mp hx with hx1 | hx1
                · subst hx1
                  refine ⟨rfl, dep, List.mem_cons_self _ _, rfl, ?_, ip, hfi, hemp⟩
                  have hmem : latestPkg ∈ avail :=
                    latestPackage_mem_of_ne_nil hlp
                      (by intro hc; exact hlen (by simp [hc]))
                  exact findAvailable_mem hfa _ hmem
                · obtain ⟨hsel, dep2, hdep2, hrest⟩ := ih hnd x hx1
                  exact ⟨hsel, dep2, List.mem_cons_of_mem _ hdep2, hrest⟩
      · rw [if_pos (by simp [hemp])] at h
        obtain ⟨hsel, dep2, hdep2, hrest⟩ := ih h x hx
        exact ⟨hsel, dep2, List.mem_cons_of_mem _ hdep2, hrest⟩

/-! ## Claim C10 -/

/-- C10: `getNeededDeps` never returns the `InstalledNoMatchVersionSpec`
error: the guard protecting that return repeats the immediately preceding
`findInstalled` call with identical arguments, so the error branch is
unreachable. -/
theorem C10_getNeededDeps_never_noMatchVersionSpec (r : Resolver) (pkg : Package) :
    isNoMatchResult (getNeededDeps r pkg) = false := by
  cases h : getNeededDeps r pkg with
  | ok l => rfl
  | error e =>
    have hs := getNeededDeps_error h
    cases e <;> simp_all [subErrOK, isNoMatchResult]

/-! ## Claim C5 -/

/-- C5: `splitPackage` parses `"test-packageB[foo,-bar] >= 1.2.3"` into
name `test-packageB`, version spec `>= 1.2.3` and options
`{foo ↦ true, bar ↦ false}`, and `"test-package<1.2.4"` into name
`test-package`, version spec `<1.2.4` and no options. -/
theorem C5_splitPackage_examples :
    splitPackage "test-packageB[foo,-bar] >= 1.2.3" =
      ("test-packageB", ">= 1.2.3", [("foo", true), ("bar", false)]) ∧
    splitPackage "test-package<1.2.4" = ("test-package", "<1.2.4", []) :=
  ⟨by decide, by decide⟩

/-! ## Claim C1 -/

/-- C1: every plan returned by `Resolver.Install` decomposes into one group
per requested spec, each listing the needed dependencies first (with
`Selected=false`) and the user-selected package last (with
`Selected=true`). -/
theorem C1_install_plan_groups (r : Resolver) :
    ∀ (pkgs : List String) (ret : List ResolverInstallSet),
      resolverInstall r pkgs = .ok ret →
      ∃ groups : List (List ResolverInstallSet),
        groups.length = pkgs.length ∧ ret = groups.flatten ∧
        ∀ g ∈ groups, installGroup r g := by
  intro pkgs
  induction pkgs with
  | nil =>
    intro ret h
    rw [resolverInstall] at h
    injection h with h2
    exact ⟨[], rfl, h2.symm ▸ rfl, by simp⟩
  | cons pkg rest ih =>
    intro ret h
    rw [resolverInstall] at h
    cases hfi : findInstalled r (splitName pkg) "" with
    | error e => simp only [hfi] at h; exact Except.noConfusion h
    | ok ip =>
      simp only [hfi] at h
      by_cases hemp : ip.isEmpty = true
      · rw [if_neg (by simp [hemp])] at h
        cases hla : latestAvailablePackage r (splitName pkg) (splitVersionSpec pkg) none with
        | error e => simp only [hla] at h; exact Except.noConfusion h
        | ok latest =>
          simp only [hla] at h
          by_cases hle : latest.isEmpty = true
          · rw [if_pos hle] at h; exact Except.noConfusion h
          · rw [if_neg hle] at h
            cases hnd : getNeededDeps r latest with
            | error e => simp only [hnd] at h; exact Except.noConfusion h
            | ok needed =>
              simp only [hnd] at h
              cases hri : resolverInstall r rest with
              | error e => simp only [hri] at h; exact Except.noConfusion h
              | ok tail =>
                simp only [hri] at h
                injection h with h2
                obtain ⟨groups, hlen, hjoin, hall⟩ := ih tail hri
                refine ⟨(needed ++
                  [{ install := latest, options := splitOptions pkg,
                     selected := true }]) :: groups, by simp [hlen], ?_, ?_⟩
                · rw [← h2, hjoin]
                  simp
                · intro g hg
                  rcases List.mem_cons.mp hg with hg1 | hg1
                  · subst hg1
                    exact ⟨needed, _, hnd, rfl,
                      fun x hx => (getNeededDepsAux_mem hnd x hx).1, rfl⟩
                  · exact hall g hg1
      · rw [if_pos (by simp [hemp])] at h
        exact Except.noConfusion h

/-- Witness for C1 at the concrete dependency-range scenario. -/
theorem C1_install_plan_groups_witness :
    resolverInstall c1Resolver ["pkgB"] = .ok c1Plan ∧
    ∃ groups : List (List ResolverInstallSet),
      groups.length = ["pkgB"].length ∧ c1Plan = groups.flatten ∧
      ∀ g ∈ groups, installGroup c1Resolver g :=
  ⟨by rfl, C1_install_plan_groups c1Resolver ["pkgB"] c1Plan (by rfl)⟩

/-! ## Claim C6 -/

/-- C6: with a package installed and the latest available candidate
computed, `Resolver.Upgrade` fails with `NoPackageAvailableForUpgrade`
exactly when that candidate is absent (empty version) or equal to the
installed version. -/
theorem C6_upgrade_noUpgrade_iff (r : Resolver) (pkg : String)
    (ip : InstalledPackage) (latest : Package)
    (hinst : findInstalled r (splitName pkg) "" = .ok ip)
    (hne : ip.isEmpty = false)
    (hlatest : latestAvailablePackage r (splitName pkg) (splitVersionSpec pkg) none
      = .ok latest) :
    (resolverUpgrade r [pkg] = .error (.noPackageAvailableForUpgrade pkg)) ↔
      (latest.version = "" ∨ latest.version = ip.package.version) := by
  rw [resolverUpgrade]
  simp only [hinst]
  rw [if_neg (by simp [hne])]
  simp only [hlatest]
  by_cases hg : (latest.version = "" ∨ latest.version = ip.package.version)
  · rw [if_pos hg]
    exact iff_of_true rfl hg
  · rw [if_neg hg]
    apply iff_of_false _ hg
    cases hnd : getNeededDeps r latest with
    | error e =>
      simp only [hnd]
      intro hc
      injection hc with h2
      have := getNeededDeps_error hnd
      subst h2
      simp [subErrOK] at this
    | ok needed =>
      simp only [hnd]
      cases hud : upgradeDepsSets r needed with
      | error e =>
        simp only [hud]
        intro hc
        injection hc with h2
        have := upgradeDepsSets_error hud
        subst h2
        simp [subErrOK] at this
      | ok deps =>
        simp only [hud]
        simp only [show resolverUpgrade r [] = .ok [] from rfl]
        intro hc
        exact Except.noConfusion hc

/-- Witness for C6: an upgrade requested immediately after installing the
latest version is rejected with `NoPackageAvailableForUpgrade`. -/
theorem C6_upgrade_noUpgrade_iff_witness :
    findInstalled c6Resolver (splitName "pkgA") "" = .ok c6Installed ∧
    c6Installed.isEmpty = false ∧
    latestAvailablePackage c6Resolver (splitName "pkgA") (splitVersionSpec "pkgA") none
      = .ok { name := "pkgA", version := "1.0.3" } ∧
    resolverUpgrade c6Resolver ["pkgA"] =
      .error (.noPackageAvailableForUpgrade "pkgA") :=
  ⟨by rfl, by rfl, by rfl,
    (C6_upgrade_noUpgrade_iff c6Resolver "pkgA" c6Installed
      { name := "pkgA", version := "1.0.3" } (by rfl) (by rfl) (by rfl)).mpr
      (Or.inr rfl)⟩

/-! ## Claim C3 -/

/-- Counterexample to C3: with `foo 1.0.0` installed in the context,
resolving `bar` (which depends on `foo >= 2.0`) emits an install for the
name `foo` even though `foo` is already installed (at a version that does
not satisfy the dependency spec), contradicting "dependency resolution
never emits an install for a name that is already installed (at any
version) in that context". -/
theorem C3_counterexample_dep_name_reemitted :
    newResolver [c3Installed] c3Avail "default" = .ok c3Resolver ∧
    resolverInstall c3Resolver ["bar"] = .ok c3Plan ∧
    c3Plan.head?.map (fun x => x.install.name) = some "foo" ∧
    (∃ ip ∈ c3Resolver.installedPkgs,
      ip.package.name = "foo" ∧ ip.isEmpty = false) :=
  ⟨by rfl, by rfl, by rfl, c3Installed, by decide, by decide⟩

/-- C3 (amended): installing a name already installed in the current
context fails with `PackageAlreadyInstalled`, and dependency resolution
never emits an install for a dependency when some installed package
satisfies the dependency's name *and version spec*; a name installed only
at versions outside the dependency's version spec is emitted again. -/
theorem C3_amended_unique_name_guard (r : Resolver) :
    (∀ (pkg : String) (rest : List String) (ip : InstalledPackage),
        findInstalled r (splitName pkg) "" = .ok ip → ip.isEmpty = false →
        resolverInstall r (pkg :: rest) =
          .error (.resolverPackageAlreadyInstalled (splitName pkg))) ∧
    (∀ (pkg : Package) (out : List ResolverInstallSet),
        getNeededDeps r pkg = .ok out →
        ∀ x ∈ out, ∃ dep ∈ pkg.dependencies,
          x.install.name = splitName dep ∧
          ∃ er, findInstalled r (splitName dep) (splitVersionSpec dep) = .ok er ∧
            er.isEmpty = true) := by
  constructor
  · intro pkg rest ip hinst hne
    rw [resolverInstall]
    simp only [hinst]
    rw [if_pos (by simp [hne])]
  · intro pkg out h x hx
    obtain ⟨hsel, dep, hdep, hopts, hname, er, her, hemp⟩ :=
      getNeededDepsAux_mem h x hx
    exact ⟨dep, hdep, hname, er, her, hemp⟩

/-- Witness for the amended C3: installing `foo` while `foo 1.0.0` is
installed fails with `PackageAlreadyInstalled`. -/
theorem C3_amended_unique_name_guard_witness :
    findInstalled c3Resolver (splitName "foo") "" = .ok c3Installed ∧
    c3Installed.isEmpty = false ∧
    resolverInstall c3Resolver ["foo"] =
      .error (.resolverPackageAlreadyInstalled (splitName "foo")) :=
  ⟨by rfl, by rfl,
    (C3_amended_unique_name_guard c3Resolver).1 "foo" [] c3Installed
      (by rfl) (by rfl)⟩


/-! ## Claim C8 -/

theorem toDigitsCore_length_ge (b : Nat) :
    ∀ (f n : Nat) (l : List Char), l.length ≤ (Nat.toDigitsCore b f n l).length := by
  intro f
  induction f with
  | zero => intro n l; simp [Nat.toDigitsCore]
  | succ f ih =>
    intro n l
    rw [Nat.toDigitsCore]
    split
    · simp
    · calc l.length ≤ (Nat.digitChar (n % b) :: l).length := by simp
        _ ≤ _ := ih (n / b) (Nat.digitChar (n % b) :: l)

theorem toDigits_ne_nil (n : Nat) : Nat.toDigits 10 n ≠ [] := by
  rw [Nat.toDigits, Nat.toDigitsCore]
  split
  · simp
  · intro hc
    have h2 := toDigitsCore_length_ge 10 n (n / 10) [Nat.digitChar (n % 10)]
    rw [hc] at h2
    simp at h2

/-- The decimal rendering of a natural number is never the empty string. -/
theorem natToString_ne_empty (n : Nat) : toString n ≠ "" := by
  intro hc
  have h2 : Nat.toDigits 10 n = [] := by
    have h3 := congrArg String.data hc
    simpa [toString, Nat.repr, List.asString] using h3
  exact toDigits_ne_nil n h2

/-- C8: for a port spec parsing to a single mapping, `ensureHostPortMapping`
re-serializes the result as `[ip:][hp:]cp[/proto]` with the host-port
separator present exactly when the IP or the host port is; a bare container
port with no registered host port gets an ephemeral host port in
`[1, 65535]` (the bound is the kernel contract on the injected allocator,
taken as a hypothesis) serialized as `hp:cp/proto`; and a parsed mapping
with an empty container port is returned unchanged. -/
theorem C8_port_allocator_reserialization :
    (∀ (rawPort : String) (registered allocated : ServicePortMap)
        (alloc : Nat → Nat) (count : Nat) (pm : PortMapping)
        (out : String) (alloc2 : ServicePortMap) (count2 : Nat),
        parsePortSpec rawPort = .ok [pm] → pm.containerPort ≠ "" →
        ensureHostPortMapping rawPort registered allocated alloc count =
          .ok (out, alloc2, count2) →
        ∃ hp, out =
          (if pm.hostIP ≠ "" then pm.hostIP ++ ":" else "") ++
          (if hp ≠ "" ∨ pm.hostIP ≠ "" then hp ++ ":" else "") ++
          pm.containerPort ++
          (if pm.proto ≠ "" then "/" ++ pm.proto else "")) ∧
    (∀ (rawPort : String) (registered allocated : ServicePortMap)
        (alloc : Nat → Nat) (count : Nat) (pm : PortMapping),
        parsePortSpec rawPort = .ok [pm] → pm.containerPort ≠ "" →
        pm.hostIP = "" → pm.hostPort = "" →
        (lookupAssoc pm.containerPort registered).getD "" = "" →
        (pm.proto = "tcp" ∨ pm.proto = "udp") →
        (∀ i, 1 ≤ alloc i ∧ alloc i ≤ 65535) →
        ∃ hpN alloc2, 1 ≤ hpN ∧ hpN ≤ 65535 ∧
          ensureHostPortMapping rawPort registered allocated alloc count =
            .ok (toString hpN ++ ":" ++ pm.containerPort ++ "/" ++ pm.proto,
              alloc2, count + 1)) ∧
    (∀ (rawPort : String) (registered allocated : ServicePortMap)
        (alloc : Nat → Nat) (count : Nat) (pm : PortMapping),
        parsePortSpec rawPort = .ok [pm] → pm.containerPort = "" →
        ensureHostPortMapping rawPort registered allocated alloc count =
          .ok (rawPort, allocated, count)) := by
  refine ⟨?_, ?_, ?_⟩
  · intro rawPort registered allocated alloc count pm out alloc2 count2 hparse hcp h
    rw [ensureHostPortMapping] at h
    simp only [hparse] at h
    rw [if_neg hcp] at h
    by_cases hh0 : (if pm.hostPort = "" ∧ 0 < registered.length then
        match lookupAssoc pm.containerPort registered with
        | some registeredPort =>
          if registeredPort ≠ "" then registeredPort else pm.hostPort
        | none => pm.hostPort
      else pm.hostPort) = ""
    · rw [if_pos hh0] at h
      cases halloc : allocateEphemeralPort pm.proto alloc count with
      | error e => simp only [halloc] at h; exact Except.noConfusion h
      | ok tc =>
        simp only [halloc] at h
        injection h with h2
        rw [Prod.mk.injEq] at h2
        exact ⟨tc.1, by rw [← h2.1]; rfl⟩
    · rw [if_neg hh0] at h
      injection h with h2
      rw [Prod.mk.injEq] at h2
      exact ⟨_, by rw [← h2.1]; rfl⟩
  · intro rawPort registered allocated alloc count pm hparse hcp hip hhp hreg hproto halloc
    rw [ensureHostPortMapping]
    simp only [hparse]
    rw [if_neg hcp]
    have hh0 : (if pm.hostPort = "" ∧ 0 < registered.length then
        match lookupAssoc pm.containerPort registered with
        | some registeredPort =>
          if registeredPort ≠ "" then registeredPort else pm.hostPort
        | none => pm.hostPort
      else pm.hostPort) = "" := by
      split
      · cases hl : lookupAssoc pm.containerPort registered with
        | none => exact hhp
        | some rp =>
          rw [hl] at hreg
          simp only [Option.getD] at hreg
          rw [hreg]
          simp [hhp]
      · exact hhp
    rw [if_pos hh0]
    have hae : allocateEphemeralPort pm.proto alloc count =
        .ok (toString (alloc count), count + 1) := by
      rcases hproto with hp1 | hp1 <;> rw [hp1] <;> rfl
    rw [hae]
    have hne : toString (alloc count) ≠ "" := natToString_ne_empty (alloc count)
    have hptcp : pm.proto ≠ "" := by
      rcases hproto with hp1 | hp1 <;> simp [hp1]
    have hfmt : formatPortSpec pm.hostIP (toString (alloc count))
        pm.containerPort pm.proto =
        toString (alloc count) ++ ":" ++ pm.containerPort ++ "/" ++ pm.proto := by
      rw [formatPortSpec, hip]
      simp [hne, hptcp, String.append_assoc]
    refine ⟨alloc count,
      (if (lookupAssoc pm.containerPort allocated).getD "" = "" then
        setAssoc pm.containerPort (toString (alloc count)) allocated
      else allocated),
      (halloc count).1, (halloc count).2, ?_⟩
    show Except.ok (formatPortSpec pm.hostIP (toString (alloc count))
        pm.containerPort pm.proto,
      (if (lookupAssoc pm.containerPort allocated).getD "" = "" then
        setAssoc pm.containerPort (toString (alloc count)) allocated
      else allocated), count + 1) = _
    rw [hfmt]
  · intro rawPort registered allocated alloc count pm hparse hcp
    rw [ensureHostPortMapping]
    simp only [hparse]
    rw [if_pos hcp]

/-- Witness for C8 at the bare container port `3001` with no registered
host port and the kernel assigning `42000`. -/
theorem C8_port_allocator_reserialization_witness :
    parsePortSpec "3001" =
      .ok [{ hostIP := "", hostPort := "", containerPort := "3001",
             proto := "tcp" }] ∧
    ("3001" : String) ≠ "" ∧
    ensureHostPortMapping "3001" [] [] (fun _ => 42000) 0 =
      .ok ("42000:3001/tcp", [("3001", "42000")], 1) ∧
    (∃ hp, ("42000:3001/tcp" : String) =
      (if ("" : String) ≠ "" then "" ++ ":" else "") ++
      (if hp ≠ "" ∨ ("" : String) ≠ "" then hp ++ ":" else "") ++
      "3001" ++
      (if ("tcp" : String) ≠ "" then "/" ++ "tcp" else "")) :=
  ⟨by decide, by decide, by decide,
    C8_port_allocator_reserialization.1 "3001" [] [] (fun _ => 42000) 0
      { hostIP := "", hostPort := "", containerPort := "3001", proto := "tcp" }
      "42000:3001/tcp" [("3001", "42000")] 1 (by decide) (by decide) (by decide)⟩


/-! ## Claim C2 -/

/-- A successful map lookup implies a non-empty map. -/
theorem lookupAssoc_pos {α : Type} {k : String} {v : α} :
    ∀ {l : List (String × α)}, lookupAssoc k l = some v → 0 < l.length := by
  intro l h
  cases l with
  | nil => rw [lookupAssoc] at h; exact Option.noConfusion h
  | cons p rest => simp

/-- Searching a list ending in a matching record, none of whose other
entries match, finds that record. -/
theorem pmFindInstalledByName_append {name : String} {rec : InstalledPackage}
    (hrec : rec.package.name = name) :
    ∀ {l : List InstalledPackage}, (∀ ip ∈ l, ip.package.name ≠ name) →
      pmFindInstalledByName name (l ++ [rec]) = some rec := by
  intro l
  induction l with
  | nil => intro _; simp [pmFindInstalledByName, hrec]
  | cons p rest ih =>
    intro h
    rw [List.cons_append, pmFindInstalledByName]
    rw [if_neg (h p (List.mem_cons_self _ _))]
    exact ih (fun ip hip => h ip (List.mem_cons_of_mem _ hip))

/-- `setRegisteredPorts` changes only the contexts. -/
theorem pmSetRegisteredPorts_installed (st : PMState) (c p : String)
    (ports : PackagePortRegistry) :
    (pmSetRegisteredPorts st c p ports).installedPackages =
      st.installedPackages := by
  rw [pmSetRegisteredPorts]

/-- `setRegisteredPorts` keeps the active context. -/
theorem pmSetRegisteredPorts_active (st : PMState) (c p : String)
    (ports : PackagePortRegistry) :
    (pmSetRegisteredPorts st c p ports).activeContext = st.activeContext := by
  rw [pmSetRegisteredPorts]

/-- C2 (amended): for a package `x` resolving to a single-entry plan whose
name is not installed in the active context, `Install(x)` followed by
`Uninstall(x.name)` restores the installed-package list exactly — but the
uninstall leaves the contexts (and so the port registry) exactly as the
install wrote them: port-registry entries created during install are NOT
removed on uninstall. -/
theorem C2_amended_uninstall_keeps_registry (cfg : Config) (st : PMState)
    (w : World) (x : String) (r : Resolver) (sel : ResolverInstallSet)
    (st1 st2 : PMState) (w1 w2 : World) (keepData force : Bool)
    (hres : newResolver (pmInstalledPackages st) (pmAvailablePackages cfg)
      st.activeContext = .ok r)
    (hplan : resolverInstall r [x] = .ok [sel])
    (hfresh : ∀ ip ∈ st.installedPackages,
      ip.context = st.activeContext → ip.package.name ≠ sel.install.name)
    (hinst : pmInstall cfg st w [x] = .ok (st1, w1))
    (hunin : pmUninstall cfg st1 w1 sel.install.name keepData force
      = .ok (st2, w2)) :
    st2.installedPackages = st.installedPackages ∧ st2.contexts = st1.contexts := by
  rw [pmInstall] at hinst
  split at hinst
  · exact Except.noConfusion hinst
  · simp only [hres, hplan] at hinst
    rw [pmInstallLoop] at hinst
    cases hpi : packageInstall cfg sel.install st.activeContext
        (mergeOpts sel.install.defaultOpts sel.options) true
        (pmRegisteredPorts st st.activeContext sel.install.name) w with
    | error e => simp only [hpi] at hinst; exact Except.noConfusion hinst
    | ok pw =>
      simp only [hpi] at hinst
      rw [pmInstallLoop] at hinst
      injection hinst with hinst2
      rw [Prod.mk.injEq] at hinst2
      obtain ⟨hst1, _⟩ := hinst2
      -- the record appended by the install
      set rec := newInstalledPackage sel.install st.activeContext ""
        [] (mergeOpts sel.install.defaultOpts sel.options) with hrecdef
      have hst1installed : st1.installedPackages = st.installedPackages ++ [rec] := by
        rw [← hst1, pmSetRegisteredPorts_installed]
      have hst1active : st1.activeContext = st.activeContext := by
        rw [← hst1, pmSetRegisteredPorts_active]
      have hreccontext : rec.context = st.activeContext := rfl
      have hrecname : rec.package.name = sel.install.name := rfl
      -- the active-context view after the install
      have hview : pmInstalledPackages st1 = pmInstalledPackages st ++ [rec] := by
        rw [pmInstalledPackages, pmInstalledPackages, hst1installed, hst1active,
          List.filter_append]
        simp [hreccontext]
      -- the uninstall finds exactly the appended record
      have hfind : pmFindInstalledByName sel.install.name
          (pmInstalledPackages st1) = some rec := by
        rw [hview]
        apply pmFindInstalledByName_append hrecname
        intro ip hip
        rw [pmInstalledPackages, List.mem_filter] at hip
        exact hfresh ip hip.1 (by simpa using hip.2)
      rw [pmUninstall, hfind] at hunin
      split at hunin
      · exact Except.noConfusion hunin
      · next u hequ =>
        injection hequ with hequ2
        subst hequ2
        split at hunin
        · exact Except.noConfusion hunin
        · rw [pmUninstallPackage] at hunin
          cases hpu : packageUninstall cfg rec.package rec.context keepData true w1 with
          | error e => simp only [hpu] at hunin; exact Except.noConfusion hunin
          | ok w2x =>
            simp only [hpu] at hunin
            injection hunin with hunin2
            rw [Prod.mk.injEq] at hunin2
            obtain ⟨hst2, _⟩ := hunin2
            constructor
            · rw [← hst2]
              show (st1.installedPackages.filter _) = st.installedPackages
              rw [hst1installed, List.filter_append]
              have hfr : (List.filter (fun tmp => ¬ (tmp.context = rec.context ∧
                  tmp.package.name = rec.package.name ∧
                  tmp.package.version = rec.package.version) : InstalledPackage → Bool)
                  [rec]) = [] := by
                simp [List.filter]
              rw [hfr, List.append_nil]
              rw [List.filter_eq_self]
              intro ip hip
              simp only [decide_eq_true_eq, Decidable.not_not]
              intro hc
              exact absurd (hc.2.1.symm ▸ hfresh ip hip (hreccontext ▸ hc.1))
                (by simp [hrecname, hc.2.1])
            · rw [← hst2]


/-- Counterexample to C2: installing `pkgX` (which allocates host port
42000 for container port 3001 and records it) and then uninstalling it
restores the installed-package list but NOT the port registry: the
`pkgX` registry entry created during install is still present afterwards,
so the port registry differs from its pre-install value. -/
theorem C2_counterexample_registry_survives_uninstall :
    pmInstall c2Cfg c2St0 {} ["pkgX"] = .ok (c2St1, c2W1) ∧
    pmUninstall c2Cfg c2St1 c2W1 "pkgX" false false = .ok (c2St2, c2W2) ∧
    c2St2.installedPackages = c2St0.installedPackages ∧
    lookupAssoc "default" c2St0.contexts =
      some { network := "preprod", networkMagic := 1, portRegistry := [] } ∧
    lookupAssoc "default" c2St2.contexts = some c2CtxPost ∧
    c2CtxPost.portRegistry = [("pkgX", [("node", [("3001", "42000")])])] ∧
    ¬ c2St2.contexts = c2St0.contexts := by
  refine ⟨by decide, by decide, by rfl, by rfl, by rfl, by rfl, by decide⟩

/-- Witness for the amended C2 at the concrete `pkgX` scenario. -/
theorem C2_amended_uninstall_keeps_registry_witness :
    newResolver (pmInstalledPackages c2St0) (pmAvailablePackages c2Cfg)
      c2St0.activeContext = .ok c2Resolver ∧
    resolverInstall c2Resolver ["pkgX"] = .ok [c2Sel] ∧
    pmInstall c2Cfg c2St0 {} ["pkgX"] = .ok (c2St1, c2W1) ∧
    pmUninstall c2Cfg c2St1 c2W1 c2Sel.install.name false false
      = .ok (c2St2, c2W2) ∧
    (c2St2.installedPackages = c2St0.installedPackages ∧
      c2St2.contexts = c2St1.contexts) :=
  ⟨by rfl, by rfl, by decide, by decide,
    C2_amended_uninstall_keeps_registry c2Cfg c2St0 {} "pkgX" c2Resolver c2Sel
      c2St1 c2St2 c2W1 c2W2 false false (by rfl) (by rfl)
      (by intro ip hip _; exact absurd hip (by simp [c2St0])) (by decide)
      (by decide)⟩

/-! ## Claim C7 -/

/-- C7: when the parsed port spec has an empty host port and the remembered
map supplies a non-empty host port for the container port,
`ensureHostPortMapping` uses the remembered port and acquires no ephemeral
port (the allocation count is unchanged); consequently, in the concrete
install-then-upgrade scenario, installing `pkgA 1.0.3` (docker step binding
container port 3001, host port 42000 allocated and recorded) and upgrading
to `pkgA 1.0.4` with the same container port leaves the new container bound
to host port 42000, with the ephemeral allocator used only once (at
install). -/
theorem C7_upgrade_reuses_remembered_port :
    (∀ (rawPort : String) (registered allocated : ServicePortMap)
        (alloc : Nat → Nat) (count : Nat) (pm : PortMapping) (hp : String),
        parsePortSpec rawPort = .ok [pm] → pm.containerPort ≠ "" →
        pm.hostPort = "" → lookupAssoc pm.containerPort registered = some hp →
        hp ≠ "" →
        ∃ allocated2,
          ensureHostPortMapping rawPort registered allocated alloc count =
            .ok (formatPortSpec pm.hostIP hp pm.containerPort pm.proto,
              allocated2, count)) ∧
    (pmInstall c7CfgA c7St0 {} ["pkgA"] = .ok (c7St1, c7W1) ∧
     lookupAssoc "default" c7St1.contexts = some c7Ctx1 ∧
     c7Ctx1.portRegistry = [("pkgA", [("node", [("3001", "42000")])])] ∧
     pmUpgrade c7CfgB c7St1 c7W1 ["pkgA"] = .ok (c7St2, c7W2) ∧
     lookupAssoc "pkgA-1.0.4-default-node" c7W2.containers =
       some [{ hostIP := "", hostPort := "42000", containerPort := "3001",
               proto := "tcp" }] ∧
     c7W2.allocCount = 1) := by
  constructor
  · intro rawPort registered allocated alloc count pm hp hparse hcp hhp hlook hhpne
    rw [ensureHostPortMapping]
    simp only [hparse]
    rw [if_neg hcp]
    have hh0 : (if pm.hostPort = "" ∧ 0 < registered.length then
        match lookupAssoc pm.containerPort registered with
        | some registeredPort =>
          if registeredPort ≠ "" then registeredPort else pm.hostPort
        | none => pm.hostPort
      else pm.hostPort) = hp := by
      rw [if_pos ⟨hhp, lookupAssoc_pos hlook⟩, hlook]
      simp [hhpne]
    rw [hh0, if_neg hhpne]
    exact ⟨_, rfl⟩
  · exact ⟨by decide, by rfl, by rfl, by decide, by rfl, by rfl⟩

/-- Witness for C7's remembered-port clause at a concrete spec. -/
theorem C7_upgrade_reuses_remembered_port_witness :
    parsePortSpec "3001" =
      .ok [{ hostIP := "", hostPort := "", containerPort := "3001",
             proto := "tcp" }] ∧
    ("3001" : String) ≠ "" ∧
    lookupAssoc "3001" [("3001", "40000")] = some "40000" ∧
    ("40000" : String) ≠ "" ∧
    (∃ allocated2,
      ensureHostPortMapping "3001" [("3001", "40000")] [] (fun _ => 42000) 5 =
        .ok (formatPortSpec "" "40000" "3001" "tcp", allocated2, 5)) :=
  ⟨by decide, by decide, by decide, by decide,
    C7_upgrade_reuses_remembered_port.1 "3001" [("3001", "40000")] []
      (fun _ => 42000) 5
      { hostIP := "", hostPort := "", containerPort := "3001", proto := "tcp" }
      "40000" (by decide) (by decide) (by decide) (by decide) (by decide)⟩


/-! ## Claim C4: the state store

`State.saveFile` / `State.Save` (`pkgmgr/state.go`, current revision) are
modelled as the trace of filesystem operations they issue; YAML
marshalling of the in-memory state cannot fail and is not an operation on
the filesystem. -/

/-- Counterexample to C4: a full `Save` on a fresh configuration directory
issues no rename at all, so no file is written via the claimed
write-to-temporary-then-rename pattern (each file is written directly in
place). -/
theorem C4_counterexample_save_never_renames :
    (stateSaveOps "/home/user/.config/cardano-up" false).any isRenameOp
      = false ∧
    stateSaveOps "/home/user/.config/cardano-up" false =
      [.statDir "/home/user/.config/cardano-up",
       .mkdirAll "/home/user/.config/cardano-up" 0o700,
       .writeFile "/home/user/.config/cardano-up/contexts.yaml" 0o600,
       .statDir "/home/user/.config/cardano-up",
       .writeFile "/home/user/.config/cardano-up/active_context.yaml" 0o600,
       .statDir "/home/user/.config/cardano-up",
       .writeFile "/home/user/.config/cardano-up/installed_packages.yaml" 0o600,
       .statDir "/home/user/.config/cardano-up",
       .writeFile "/home/user/.config/cardano-up/port_registry.yaml" 0o600] :=
  ⟨by decide, by decide⟩

/-- C4 (amended): `Save` writes each of the four persisted YAML files
directly in place (a single `os.WriteFile`, no temporary file and no
rename) with file mode `0600`, creating the configuration directory with
mode `0700` exactly when it is absent. -/
theorem C4_amended_save_direct_writes (configDir : String) (dirExists : Bool) :
    stateSaveOps configDir dirExists =
      FsOp.statDir configDir ::
        (if dirExists then [] else [FsOp.mkdirAll configDir 0o700]) ++
        [FsOp.writeFile (configDir ++ "/" ++ "contexts.yaml") 0o600,
         FsOp.statDir configDir,
         FsOp.writeFile (configDir ++ "/" ++ "active_context.yaml") 0o600,
         FsOp.statDir configDir,
         FsOp.writeFile (configDir ++ "/" ++ "installed_packages.yaml") 0o600,
         FsOp.statDir configDir,
         FsOp.writeFile (configDir ++ "/" ++ "port_registry.yaml") 0o600] ∧
    (stateSaveOps configDir dirExists).any isRenameOp = false ∧
    (∀ p m, FsOp.writeFile p m ∈ stateSaveOps configDir dirExists →
      m = 0o600) ∧
    (∀ p m, FsOp.mkdirAll p m ∈ stateSaveOps configDir dirExists →
      p = configDir ∧ m = 0o700 ∧ dirExists = false) := by
  cases dirExists <;>
    exact ⟨by simp [stateSaveOps, saveFileOps],
      by simp [stateSaveOps, saveFileOps, isRenameOp],
      by intro p m hm; simp [stateSaveOps, saveFileOps] at hm <;> tauto,
      by intro p m hm; simp [stateSaveOps, saveFileOps] at hm <;> tauto⟩

/-- Witness for the amended C4 at a concrete directory. -/
theorem C4_amended_save_direct_writes_witness :
    stateSaveOps "/cfg" true =
      FsOp.statDir "/cfg" ::
        (if true then [] else [FsOp.mkdirAll "/cfg" 0o700]) ++
        [FsOp.writeFile ("/cfg" ++ "/" ++ "contexts.yaml") 0o600,
         FsOp.statDir "/cfg",
         FsOp.writeFile ("/cfg" ++ "/" ++ "active_context.yaml") 0o600,
         FsOp.statDir "/cfg",
         FsOp.writeFile ("/cfg" ++ "/" ++ "installed_packages.yaml") 0o600,
         FsOp.statDir "/cfg",
         FsOp.writeFile ("/cfg" ++ "/" ++ "port_registry.yaml") 0o600] :=
  (C4_amended_save_direct_writes "/cfg" true).1


/-! ## Claim C9: file-step activation

`PackageInstallStepFile.activate` (`part_002`) is modelled against an
abstract filesystem mapping paths to nodes (regular file or symlink).
`os.MkdirAll` of the parent directory affects no modelled node;
`os.Symlink` is only reached with the target path absent (checked or just
removed), where it sets the node. -/

/-- Looking up the key just set finds the new value. -/
theorem lookupAssoc_setAssoc {α : Type} (k : String) (v : α) :
    ∀ (l : List (String × α)), lookupAssoc k (setAssoc k v l) = some v := by
  intro l
  induction l with
  | nil => simp [setAssoc, lookupAssoc]
  | cons p rest ih =>
    rw [setAssoc]
    split
    · rw [lookupAssoc, if_pos rfl]
    · next hne => rw [lookupAssoc, if_neg hne]; exact ih

/-- A prefix of a list is a prefix of any extension. -/
theorem goHasPrefix_append {p : List Char} :
    ∀ {a : List Char}, goHasPrefix p a = true →
      ∀ (b : List Char), goHasPrefix p (a ++ b) = true := by
  induction p with
  | nil => intro a _ b; rfl
  | cons c cs ih =>
    intro a h b
    cases a with
    | nil => exact absurd h (by simp [goHasPrefix])
    | cons x xs =>
      rw [goHasPrefix] at h
      rw [List.cons_append, goHasPrefix]
      simp only [Bool.and_eq_true] at h ⊢
      exact ⟨h.1, ih h.2 b⟩

/-- A string starting with the needle contains it. -/
theorem goContainsSub_of_hasPrefix {needle l : List Char}
    (h : goHasPrefix needle l = true) : goContainsSub needle l = true := by
  cases l with
  | nil =>
    cases needle with
    | nil => rfl
    | cons c cs => exact absurd h (by simp [goHasPrefix])
  | cons c cs => rw [goContainsSub]; simp [h]

/-- C9: for a `binary` file step, activation creates the symlink in the
bin dir pointing at the data-dir copy when the target is absent; replaces
an existing symlink; and fails with a message containing
"will not overwrite existing file" when a non-symlink file is present. -/
theorem C9_file_activate_symlink_rules (cfg : Config)
    (step : PackageInstallStepFile) (pkgName : String) (fs : FileSystem)
    (hbin : step.binary = true) :
    (lookupAssoc (cfg.binDir ++ "/" ++ cfg.render step.filename) fs = none →
      ∃ fs2, fileStepActivate cfg step pkgName fs = .ok fs2 ∧
        lookupAssoc (cfg.binDir ++ "/" ++ cfg.render step.filename) fs2 =
          some (.symlink (cfg.dataDir ++ "/" ++ pkgName ++ "/" ++
            step.filename))) ∧
    (∀ t, lookupAssoc (cfg.binDir ++ "/" ++ cfg.render step.filename) fs =
        some (.symlink t) →
      ∃ fs2, fileStepActivate cfg step pkgName fs = .ok fs2 ∧
        lookupAssoc (cfg.binDir ++ "/" ++ cfg.render step.filename) fs2 =
          some (.symlink (cfg.dataDir ++ "/" ++ pkgName ++ "/" ++
            step.filename))) ∧
    (lookupAssoc (cfg.binDir ++ "/" ++ cfg.render step.filename) fs =
        some .regular →
      ∃ msg, fileStepActivate cfg step pkgName fs = .error msg ∧
        goContainsSub "will not overwrite existing file".data msg.data
          = true) := by
  refine ⟨?_, ?_, ?_⟩
  · intro hnone
    rw [fileStepActivate, if_pos hbin]
    simp only [hnone]
    exact ⟨_, rfl, lookupAssoc_setAssoc _ _ _⟩
  · intro t hsym
    rw [fileStepActivate, if_pos hbin]
    simp only [hsym]
    exact ⟨_, rfl, lookupAssoc_setAssoc _ _ _⟩
  · intro hreg
    rw [fileStepActivate, if_pos hbin]
    simp only [hreg]
    refine ⟨_, rfl, ?_⟩
    apply goContainsSub_of_hasPrefix
    show goHasPrefix _ (("will not overwrite existing file " ++ "\"" ++
      (cfg.binDir ++ "/" ++ cfg.render step.filename) ++ "\"" ++
      " with symlink").data) = true
    have hd : ("will not overwrite existing file " ++ "\"" ++
        (cfg.binDir ++ "/" ++ cfg.render step.filename) ++ "\"" ++
        " with symlink").data =
        ("will not overwrite existing file " ++ "\"").data ++
        ((cfg.binDir ++ "/" ++ cfg.render step.filename) ++ "\"" ++
          " with symlink").data := by
      simp [String.data_append]
    rw [hd]
    exact goHasPrefix_append (by decide) _

/-- Witness for C9: a regular file at `/bin/test-bin` makes activation of
the `test-bin` binary step fail with the expected message. -/
theorem C9_file_activate_symlink_rules_witness :
    ({ binary := true, filename := "test-bin" } :
      PackageInstallStepFile).binary = true ∧
    lookupAssoc ("/bin" ++ "/" ++ id "test-bin")
      [("/bin/test-bin", FsNode.regular)] = some .regular ∧
    ∃ msg,
      fileStepActivate { binDir := "/bin", dataDir := "/data" }
          { binary := true, filename := "test-bin" } "pkgZ-1.0.0-default"
          [("/bin/test-bin", FsNode.regular)] = .error msg ∧
      goContainsSub "will not overwrite existing file".data msg.data = true :=
  ⟨by decide, by decide,
    (C9_file_activate_symlink_rules { binDir := "/bin", dataDir := "/data" }
      { binary := true, filename := "test-bin" } "pkgZ-1.0.0-default"
      [("/bin/test-bin", FsNode.regular)] (by decide)).2.2 (by decide)⟩

end CardanoUp
